import Mathlib

/-!
# Verification of the 4DHydro open-science-catalog builder

A shallow embedding of the algorithmic core of the `osc_builder` package
(`util.py`, `build.py`, `metrics.py`, `origcsv.py`) together with proofs and
refutations of the specification's claims about it.

Modelling conventions:

* Python exceptions are modelled with `Except PyErr`; the error constructor
  records which Python exception class is raised.
* `datetime` values that the code only ever compares are modelled as `Option Nat`
  (a timestamp on a linear scale, `none` for Python `None`); `date`/`datetime`
  values whose calendar year is read are modelled by a structure carrying the
  year.
* Python `dict`s are modelled as association lists preserving insertion order,
  with `dset` (insert-or-overwrite, keeping the original position on overwrite,
  exactly like CPython), `dlookup` (`dict.get`), `dmodify` (`d[k]` read-update,
  raising `KeyError` when absent).
* Python `set[int]` is modelled by its canonical sorted duplicate-free list:
  the source only observes its sets through `sorted(...)`, so the canonical
  representative is observationally faithful.
* `str` manipulation is carried out on `List Char` (`String.data`), so that all
  definitions are kernel-executable.
-/

deriving instance DecidableEq for Except

namespace OSC

/-- The Python exception classes raised by the embedded code. -/
inductive PyErr where
  | typeError
  | valueError
  | keyError
  | attributeError
  | indexError
deriving DecidableEq, Repr

/-! ## Character-list string primitives (models of CPython `str` methods) -/

/-- Auxiliary accumulator for `splitOnChar`. -/
def splitOnCharAux (sep : Char) : List Char → List Char → List (List Char)
  | [], acc => [acc.reverse]
  | c :: cs, acc =>
      if c = sep then acc.reverse :: splitOnCharAux sep cs []
      else splitOnCharAux sep cs (c :: acc)

/-- Model of Python `str.split(sep)` for a one-character separator:
`"a.b".split(".") == ["a", "b"]`, `"".split(".") == [""]`. -/
def splitOnChar (sep : Char) (cs : List Char) : List (List Char) :=
  splitOnCharAux sep cs []

/-- Model of Python `str.strip()`: drop whitespace from both ends. -/
def trimChars (cs : List Char) : List Char :=
  ((cs.dropWhile Char.isWhitespace).reverse.dropWhile Char.isWhitespace).reverse

/-- `str.strip()` on `String`. -/
def strTrim (s : String) : String := String.mk (trimChars s.data)

/-- Value of a non-empty all-digit character list, as read by CPython `int`. -/
def digitsVal? (cs : List Char) : Option Nat :=
  if cs ≠ [] ∧ cs.all Char.isDigit then
    some (cs.foldl (fun n c => 10 * n + (c.toNat - 48)) 0)
  else none

/-- Model of CPython `int(str)` on the strings this code ever feeds it: after
stripping whitespace, an optional minus sign followed by decimal digits;
anything else raises `ValueError`. -/
def pyIntCore : List Char → Except PyErr Int
  | [] => .error .valueError
  | c :: rest =>
      if c = '-' then
        match digitsVal? rest with
        | some n => .ok (-(n : Int))
        | none => .error .valueError
      else
        match digitsVal? (c :: rest) with
        | some n => .ok (n : Int)
        | none => .error .valueError

/-- `int(s)` dispatch after stripping. -/
def pyInt (s : String) : Except PyErr Int := pyIntCore (trimChars s.data)

/-- Model of `", ".join(l)`. -/
def joinComma : List String → String
  | [] => ""
  | [s] => s
  | s :: rest => s ++ ", " ++ joinComma rest

/-- Python truthiness of an optional string: `None` and `""` are falsy. -/
def truthyS : Option String → Bool
  | none => false
  | some s => s ≠ ""

/-! ## `dict.fromkeys` deduplication (first occurrence kept, insertion order) -/

/-- Accumulator variant of `dedupFirst`: `seen` holds the keys already
emitted. -/
def dedupFirstAux (seen : List String) : List String → List String
  | [] => []
  | x :: xs =>
      if x ∈ seen then dedupFirstAux seen xs
      else x :: dedupFirstAux (seen ++ [x]) xs

/-- Model of `list(dict.fromkeys(l))`: remove duplicates, keeping the first
occurrence of each element, preserving order. -/
def dedupFirst (l : List String) : List String := dedupFirstAux [] l

/-! ## Stable sorting (model of CPython `sorted(key=...)`) -/

/-- Insert `x` into `l` in front of the first element `y` with `le x y = true`.
With a total `le` and `l` sorted this is the standard stable insertion. -/
def ordInsertBy (le : α → α → Bool) (x : α) : List α → List α
  | [] => [x]
  | y :: ys => if le x y then x :: y :: ys else y :: ordInsertBy le x ys

/-- Stable insertion sort: inserting earlier input elements last, in front of
equal keys, reproduces CPython's stable `sorted`. -/
def isortBy (le : α → α → Bool) : List α → List α
  | [] => []
  | x :: xs => ordInsertBy le x (isortBy le xs)

/-- The boolean key comparison used by `sorted(key=...)` with natural keys. -/
def keyLE (k : α → Nat) (a b : α) : Bool := decide (k a ≤ k b)

/-- The last element of `l` attaining the maximal key (ties are won by the
later occurrence), `none` on the empty list. -/
def lastMaxBy (k : α → Nat) : List α → Option α
  | [] => none
  | x :: xs =>
      match lastMaxBy k xs with
      | none => some x
      | some m => if k x ≤ k m then some m else some x

/-- Model of CPython `sorted(l, key=...)` where the key can be `None`:
a stable comparison sort performs at least one comparison against every
element of a list of length ≥ 2, and any comparison involving `None`
raises `TypeError`; otherwise the stable sorted permutation is returned. -/
def pySortByKey (key : α → Option Nat) (l : List α) : Except PyErr (List α) :=
  if 2 ≤ l.length ∧ l.any (fun x => (key x).isNone) then .error .typeError
  else .ok (isortBy (keyLE (fun x => (key x).getD 0)) l)

/-! ## Python `dict` as an insertion-ordered association list -/

/-- `dict.get`: the value at the first (unique) occurrence of the key. -/
def dlookup (m : List (String × β)) (k : String) : Option β :=
  (m.find? (fun e => e.1 == k)).map (fun e => e.2)

/-- `d[k] = v`: overwrite in place, keeping the key's original position, or
append a new entry at the end — exactly CPython's insertion-order behaviour. -/
def dset (m : List (String × β)) (k : String) (v : β) : List (String × β) :=
  match m with
  | [] => [(k, v)]
  | (k', v') :: rest => if k' == k then (k', v) :: rest else (k', v') :: dset rest k v

/-- In-place update of the value at `k`; raises `KeyError` when the key is
absent (models `d[k]` followed by mutation of the looked-up value). -/
def dmodify (m : List (String × β)) (k : String) (f : β → β) :
    Except PyErr (List (String × β)) :=
  match m with
  | [] => .error .keyError
  | (k', v') :: rest =>
      if k' == k then .ok ((k', f v') :: rest)
      else do
        let rest' ← dmodify rest k f
        .ok ((k', v') :: rest')

/-- Total variant of `dmodify`: update the value at `k` when present, identity
otherwise. -/
def dmodifyT (m : List (String × β)) (k : String) (f : β → β) : List (String × β) :=
  match m with
  | [] => []
  | (k', v') :: rest =>
      if k' == k then (k', f v') :: rest else (k', v') :: dmodifyT rest k f

/-- Build a dict from rows (a Python dict comprehension). -/
def dictOf (key : ρ → String) (mk : ρ → β) (rows : List ρ) : List (String × β) :=
  rows.foldl (fun m r => dset m (key r) (mk r)) []

/-- `k in d`. -/
def dmem (m : List (String × β)) (k : String) : Bool := (dlookup m k).isSome

/-- `d[k]` as an expression: `KeyError` when absent. -/
def dgetE (m : List (String × β)) (k : String) : Except PyErr β :=
  match dlookup m k with
  | some v => .ok v
  | none => .error .keyError

/-! ## Python `set[int]` as a canonical sorted duplicate-free list -/

/-- Insert into a sorted duplicate-free list. -/
def sinsert (x : Nat) : List Nat → List Nat
  | [] => [x]
  | y :: ys => if x < y then x :: y :: ys else if x = y then y :: ys else y :: sinsert x ys

/-- Set union (`|=`) on the canonical representation. -/
def sunion (a b : List Nat) : List Nat := b.foldl (fun acc y => sinsert y acc) a

/-- Model of `set(range(a, b))`: already sorted and duplicate-free. -/
def rangeSet (a b : Nat) : List Nat := List.range' a (b - a)

/-! ## `util.py`: the Segmentation Grouper

`Product`/`Benchmark` records as consumed by `get_product_segmentation`
(`types_.py` is pure data; the fields are the ones this code reads).
`start`/`end` are `datetime`s that the grouper only ever compares, modelled as
timestamps on a linear scale; `geometry` and `released` are opaque payloads. -/
structure ProductR where
  id : String
  project : String
  collection : Option String
  region : Option String
  variables_ : List String
  eo_missions : List String
  themes : List String
  start : Option Nat
  end_ : Option Nat
  geometry : Option String
  released : Option String
deriving DecidableEq, Repr

/-- The synthetic segmentation parent built by `get_product_segmentation`
(record model of `types_.ProductSegmentation`, spec §3). -/
structure ProductSegmentation where
  title : String
  project : String
  themes : List String
  start : Option Nat
  geometry : Option String
  end_ : Option Nat
  released : Option String
  region : String
  variables_ : List String
  eo_missions : List String
deriving DecidableEq, Repr

/-- Model of `acc.append(*xs)`: `list.append` takes exactly one positional
argument, so star-unpacking a list of any length other than one raises
`TypeError`; a singleton list appends its element. -/
def appendStar (acc : List String) (xs : List String) : Except PyErr (List String) :=
  match xs with
  | [x] => .ok (acc ++ [x])
  | _ => .error .typeError

/-- The member loop of `get_product_segmentation` (util.py lines 55-61):
the Python statement `variables.append(*product.variables)` and its two
analogous statements (the `variables` field is spelled `variables_` here,
`variables` being reserved in Lean),
each guarded by a non-emptiness test. -/
def collectLists :
    List ProductR → List String × List String × List String →
    Except PyErr (List String × List String × List String)
  | [], acc => .ok acc
  | p :: ps, (vs, es, ts) => do
      let vs ← if p.variables_.length ≠ 0 then appendStar vs p.variables_ else .ok vs
      let es ← if p.eo_missions.length ≠ 0 then appendStar es p.eo_missions else .ok es
      let ts ← if p.themes.length ≠ 0 then appendStar ts p.themes else .ok ts
      collectLists ps (vs, es, ts)

/-- `list(dict.fromkeys([product.collection for product in products if
product.collection]))` — the ordered list of distinct truthy collection keys. -/
def collectionKeys (products : List ProductR) : List String :=
  dedupFirst (products.filterMap (fun p => if truthyS p.collection then p.collection else none))

/-- One iteration of the group loop of `get_product_segmentation`
(util.py lines 50-82): regions, the three attribute unions, the two sorts and
the construction of the `ProductSegmentation` record. -/
def segOfGroup (name : String) (group : List ProductR) :
    Except PyErr ProductSegmentation := do
  let regions := dedupFirst (group.filterMap (fun p => if truthyS p.region then p.region else none))
  let (vs, es, ts) ← collectLists group ([], [], [])
  let variables_ := dedupFirst vs
  let eo_missions := dedupFirst es
  let themes := dedupFirst ts
  let first ← pySortByKey (fun p => p.start) group
  let endSorted ← pySortByKey (fun p => p.end_) group
  match first.head?, endSorted.reverse.head? with
  | some f0, some e0 =>
      .ok { title := name
            project := e0.project
            themes := themes
            start := f0.start
            geometry := f0.geometry
            end_ := e0.end_
            released := f0.released
            region := joinComma regions
            variables_ := variables_
            eo_missions := eo_missions }
  | _, _ => .error .indexError

/-- The group loop of `get_product_segmentation` over the distinct collection
keys, accumulating one `ProductSegmentation` per key. -/
def gpsGo (products : List ProductR) :
    List String → Except PyErr (List ProductSegmentation)
  | [] => .ok []
  | n :: ns => do
      let seg ← segOfGroup n (products.filter (fun p => p.collection == some n))
      let rest ← gpsGo products ns
      .ok (seg :: rest)

/-- `get_product_segmentation` (util.py lines 42-84). The Python signature's
`products=None` default only normalises a missing argument to the empty list;
the embedding takes the list directly. -/
def get_product_segmentation (products : List ProductR) :
    Except PyErr (List ProductSegmentation) :=
  gpsGo products (collectionKeys products)

/-! ## `util.py`: `parse_decimal_date` -/

/-- The result of `datetime.date(y, m, d)`. -/
structure PyDate where
  year : Int
  month : Int
  day : Int
deriving DecidableEq, Repr

/-- Gregorian leap-year test, as in CPython's `datetime`. -/
def isLeapYear (y : Int) : Bool := (y % 4 = 0 ∧ y % 100 ≠ 0) ∨ y % 400 = 0

/-- Days in a month, as validated by `datetime.date`. -/
def daysInMonth (y m : Int) : Int :=
  if m = 2 then (if isLeapYear y then 29 else 28)
  else if m = 4 ∨ m = 6 ∨ m = 9 ∨ m = 11 then 30
  else 31

/-- Model of the `datetime.date(y, m, d)` constructor: `ValueError` outside
the valid ranges (year 1..9999, month 1..12, day 1..days-in-month). -/
def mkDate (y m d : Int) : Except PyErr PyDate :=
  if 1 ≤ y ∧ y ≤ 9999 ∧ 1 ≤ m ∧ m ≤ 12 ∧ 1 ≤ d ∧ d ≤ daysInMonth y m then
    .ok ⟨y, m, d⟩
  else .error .valueError

/-- `parse_decimal_date` (util.py lines 21-33): dispatch on the number of `.`
in the input (the Python local `dot_count` is inlined); note the
`int(month) + 1` shift in the one-dot branch. The `| _` fallbacks of the two
`match`es are unreachable (a string with exactly `n` dots splits into `n + 1`
parts). -/
def parse_decimal_date (source : Option String) : Except PyErr (Option PyDate) :=
  match source with
  | none => .ok none
  | some s =>
      if s.data = [] then .ok none
      else
        if s.data.count '.' = 0 then do
          let y ← pyInt s
          let d ← mkDate y 1 1
          .ok (some d)
        else if s.data.count '.' = 1 then
          match splitOnChar '.' s.data with
          | [ys, ms] => do
              let y ← pyInt (String.mk ys)
              let m ← pyInt (String.mk ms)
              let d ← mkDate y (m + 1) 1
              .ok (some d)
          | _ => .error .valueError
        else if s.data.count '.' = 2 then
          match splitOnChar '.' s.data with
          | [ys, ms, ds] => do
              let y ← pyInt (String.mk ys)
              let m ← pyInt (String.mk ms)
              let dd ← pyInt (String.mk ds)
              let d ← mkDate y m dd
              .ok (some d)
          | _ => .error .valueError
        else .ok none

/-! ## The missing `stac.py` helpers

`stac.py` and `types_.py` of this repository are not part of the provided
sources; the helpers below are modelled from the specification where noted. -/

/-- Model of the external `python-slugify` `slugify()` on ASCII input: the
lowercase alphanumeric runs joined by single hyphens (spec glossary: "a
normalized, lowercase, hyphenated identifier derived deterministically from a
display name"). -/
def slugify (s : String) : String :=
  let cs := s.data.map (fun c => if c.isAlphanum then c.toLower else ' ')
  joinHyphen (((splitOnChar ' ' cs).filter (fun run => run ≠ [])).map String.mk)
where
  /-- `"-".join(l)`. -/
  joinHyphen : List String → String
    | [] => ""
    | [x] => x
    | x :: rest => x ++ "-" ++ joinHyphen rest

/-- A `date`/`datetime` as read by the metrics pass, which only ever accesses
the calendar year. -/
structure DateC where
  year : Nat
deriving DecidableEq, Repr

/-- Model of a `pystac.Collection`/`Catalog` node as read by the metrics pass
and the cross-linker: its id, title and description, the extra-field reference
lists (`osc:themes`, `osc:variables`, `osc:missions`, `osc:project`), the
temporal extent intervals, and the hrefs of the `preview` and `via` links.
`via` is a plain `String` because `caclulate_metrics` dereferences the `via`
link unconditionally. -/
structure CollectionC where
  id : String
  title : String
  description : String
  themes : List String
  variables_ : List String
  missions : List String
  project : String
  intervals : List (Option DateC × Option DateC)
  preview : Option String
  via : String
deriving DecidableEq, Repr

/-- Modelled from the spec: `get_theme_names` of the missing `stac.py` returns
the list of theme names stored in a container's extra-fields bag ("the 'extra
fields' bag holding theme/variable/mission reference lists", spec §6). -/
def get_theme_names (c : CollectionC) : List String := c.themes

/-- Modelled from the spec: `get_theme_id` of the missing `stac.py` is the
slugified theme name (spec §3: Theme identity = slug(name)). -/
def get_theme_id (name : String) : String := slugify name

/-- Modelled from the spec: `get_variable_id` of the missing `stac.py` is the
slugified variable name (spec §3: Variable identity = slug(name)). -/
def get_variable_id (name : String) : String := slugify name

/-! ## `metrics.py`: the Metrics Aggregator (`caclulate_metrics`) -/

/-- The loop body shared by `intervals_to_years` and
`extract_collection_years`: `if start is not None and end is not None:
result |= set(range(start.year, end.year + 1))`. -/
def yearStep (result : List Nat) (iv : Option DateC × Option DateC) : List Nat :=
  match iv with
  | (some s, some e) => sunion result (rangeSet s.year (e.year + 1))
  | _ => result

/-- `intervals_to_years` (metrics.py lines 81-86): the union of the inclusive
calendar-year ranges of those intervals that have both endpoints. -/
def intervals_to_years (intervals : List (Option DateC × Option DateC)) : List Nat :=
  intervals.foldl yearStep []

/-- `extract_collection_years` (metrics.py lines 89-94): the same computation
over a collection's temporal extent. -/
def extract_collection_years (c : CollectionC) : List Nat :=
  c.intervals.foldl yearStep []

/-- The root catalog as read by `caclulate_metrics`: the children of the six
first-level sub-catalogs (only the five it visits are needed). -/
structure RootC where
  themes : List CollectionC
  variables_ : List CollectionC
  eo_missions : List CollectionC
  projects : List CollectionC
  products : List CollectionC
deriving DecidableEq, Repr

/-- The per-theme accumulator dict of `caclulate_metrics`. -/
structure TInfo where
  name : String
  num_projects : Nat
  num_products : Nat
  num_variables : Nat
  years : List Nat
  description : String
  image : Option String
  website : String
deriving DecidableEq, Repr

/-- The per-variable accumulator dict of `caclulate_metrics`. -/
structure VInfo where
  name : String
  description : String
  themes : List String
  num_products : Nat
  years : List Nat
deriving DecidableEq, Repr

/-- The per-eo-mission accumulator dict of `caclulate_metrics`. -/
structure MInfo where
  name : String
  num_products : Nat
  num_projects : Nat
  years : List Nat
deriving DecidableEq, Repr

/-- One entry of the output `themes` list (name, description, image, website
and the nested `summary` fields, flattened). -/
structure ThemeOut where
  name : String
  description : String
  image : Option String
  website : String
  years : List Nat
  numberOfProducts : Nat
  numberOfProjects : Nat
  numberOfVariables : Nat
deriving DecidableEq, Repr

/-- One entry of the output `variables` list. -/
structure VariableOut where
  name : String
  description : String
  years : List Nat
  numberOfProducts : Nat
deriving DecidableEq, Repr

/-- One entry of the output `eo-missions` list. -/
structure MissionOut where
  name : String
  years : List Nat
  numberOfProducts : Nat
  numberOfProjects : Nat
deriving DecidableEq, Repr

/-- The metrics document returned by `caclulate_metrics` (the nested
`summary` dict is flattened into the named fields). -/
structure GlobalOut where
  id : String
  years : List Nat
  numberOfProducts : Nat
  numberOfProjects : Nat
  numberOfVariables : Nat
  numberOfThemes : Nat
  numberOfMissions : Nat
  themes : List ThemeOut
  variables_ : List VariableOut
  eo_missions : List MissionOut
deriving DecidableEq, Repr

/-- The initial per-theme accumulator (lines 239-255): zero counters, empty
year set, description and the preview/via link hrefs. -/
def initThemeInfo (t : CollectionC) : TInfo :=
  ⟨t.title, 0, 0, 0, [], t.description, t.preview, t.via⟩

/-- The initial per-variable accumulator (lines 257-266). -/
def initVarInfo (v : CollectionC) : VInfo :=
  ⟨v.title, v.description, get_theme_names v, 0, []⟩

/-- The initial per-eo-mission accumulator (lines 268-277). -/
def initMissionInfo (msn : CollectionC) : MInfo :=
  ⟨msn.title, 0, 0, []⟩

/-- `theme_info["num_projects"] += 1` (line 293). -/
def bumpThemeProj (ti : TInfo) : TInfo :=
  { ti with num_projects := ti.num_projects + 1 }

/-- `theme_info["num_products"] += 1; theme_info["years"] |= years`
(lines 303-304). -/
def bumpThemeProd (years : List Nat) (ti : TInfo) : TInfo :=
  { ti with num_products := ti.num_products + 1, years := sunion ti.years years }

/-- `variable_info["num_products"] += 1; variable_info["years"] |= years`
(lines 308-309). -/
def bumpVarProd (years : List Nat) (vi : VInfo) : VInfo :=
  { vi with num_products := vi.num_products + 1, years := sunion vi.years years }

/-- `theme_infos[...]["num_variables"] += 1` (line 319). -/
def bumpThemeVars (ti : TInfo) : TInfo :=
  { ti with num_variables := ti.num_variables + 1 }

/-- `eo_mission_info["num_products"] += 1; eo_mission_info["years"] |= years`
(lines 314-315). -/
def bumpMission (years : List Nat) (i : MInfo) : MInfo :=
  { i with num_products := i.num_products + 1, years := sunion i.years years }

/-- The project loop of `caclulate_metrics` (lines 290-293): for each theme
name a project declares, increment that theme's project counter
(`theme_infos[get_theme_id(theme_name)]` raises `KeyError` when absent). -/
def projectThemeStep (tinfos : List (String × TInfo)) (pj : CollectionC) :
    Except PyErr (List (String × TInfo)) :=
  (get_theme_names pj).foldlM
    (fun m tn => dmodify m (get_theme_id tn) bumpThemeProj)
    tinfos

/-- The eo-mission update in the product loop (lines 311-315): guarded by
`if eo_mission_infos.get(eo_mission_name):`, so an unknown mission name is
silently skipped; note that `num_projects` is never touched. -/
def addMission (m : List (String × MInfo)) (name : String) (years : List Nat) :
    List (String × MInfo) :=
  match dlookup m name with
  | some _ => dmodifyT m name (bumpMission years)
  | none => m

/-- The mutable state threaded through the product loop of
`caclulate_metrics`. -/
structure PState where
  glYears : List Nat
  tinfos : List (String × TInfo)
  vinfos : List (String × VInfo)
  minfos : List (String × MInfo)

/-- One iteration of the product loop of `caclulate_metrics` (lines 297-315):
merge the product's years globally, then per declared theme, per declared
variable (both `KeyError` on an unknown reference) and per referenced
eo-mission (silently skipped when unknown). -/
def productStep (st : PState) (p : CollectionC) : Except PyErr PState := do
  let years := extract_collection_years p
  let glYears := sunion st.glYears years
  let tinfos ← (get_theme_names p).foldlM
    (fun m tn => dmodify m (get_theme_id tn) (bumpThemeProd years))
    st.tinfos
  let vinfos ← p.variables_.foldlM
    (fun m vn => dmodify m (get_variable_id vn) (bumpVarProd years))
    st.vinfos
  let minfos := p.missions.foldl (fun m mn => addMission m mn years) st.minfos
  .ok ⟨glYears, tinfos, vinfos, minfos⟩

/-- `caclulate_metrics` (metrics.py lines 235-368): seed the three accumulator
dicts from the catalog branches, walk the projects and products branches,
cross-propagate variable→theme counts, and emit the summary document.
The year sets it emits through `sorted(...)` are canonical sorted lists
already. -/
def caclulate_metrics (id : String) (root : RootC) : Except PyErr GlobalOut := do
  let tinfos0 := dictOf (fun t => t.id) initThemeInfo root.themes
  let vinfos0 := dictOf (fun v => v.id) initVarInfo root.variables_
  let minfos0 := dictOf (fun msn => msn.id) initMissionInfo root.eo_missions
  let num_themes := tinfos0.length
  let num_variables := vinfos0.length
  let num_eo_missions := minfos0.length
  let num_projects := root.projects.length
  let tinfos1 ← root.projects.foldlM projectThemeStep tinfos0
  let num_products := root.products.length
  let st ← root.products.foldlM productStep ⟨[], tinfos1, vinfos0, minfos0⟩
  let tinfosF ← st.vinfos.foldlM
    (fun m kv =>
      kv.2.themes.foldlM
        (fun m' tn => dmodify m' (get_theme_id tn) bumpThemeVars)
        m)
    st.tinfos
  .ok
    { id := id
      years := st.glYears
      numberOfProducts := num_products
      numberOfProjects := num_projects
      numberOfVariables := num_variables
      numberOfThemes := num_themes
      numberOfMissions := num_eo_missions
      themes := tinfosF.map (fun kv =>
        ⟨kv.2.name, kv.2.description, kv.2.image, kv.2.website, kv.2.years,
         kv.2.num_products, kv.2.num_projects, kv.2.num_variables⟩)
      variables_ := st.vinfos.map (fun kv =>
        ⟨kv.2.name, kv.2.description, kv.2.years, kv.2.num_products⟩)
      eo_missions := st.minfos.map (fun kv =>
        ⟨kv.2.name, kv.2.years, kv.2.num_products, kv.2.num_projects⟩) }

/-! ## `build.py`: the Cross-Linker (`link_collections`), variable→theme loop -/

/-- A `pystac.Link`. -/
structure LinkC where
  rel : String
  target : String
  media_type : String
  title : String
deriving DecidableEq, Repr

/-- A Python value as passed to `get_theme_names`: either a catalog node or a
plain function object (build.py line 364 passes the module-level function
`validate_catalog` where a catalog is expected). -/
inductive PyObj where
  | catalog (c : CollectionC)
  | pyfunc (name : String)
deriving DecidableEq, Repr

/-- `get_theme_names` as invoked on an arbitrary Python object: on a catalog
it reads the theme list from the extra-fields bag (modelled from the spec, see
`get_theme_names`); on a function object the attribute access raises
`AttributeError`. -/
def get_theme_names_obj : PyObj → Except PyErr (List String)
  | .catalog c => .ok (get_theme_names c)
  | .pyfunc _ => .error .attributeError

/-- The variable→theme linking loop of `link_collections` (build.py lines
354-366): build `themes_map` keyed by catalog id, then for every variable
catalog add one `related` link per name in `get_theme_names(validate_catalog)`
— the source passes the module-level function `validate_catalog`, not the
loop's `variable_catalog`. Returns each variable catalog paired with the links
added to it. -/
def link_collections_variables (variable_catalogs theme_catalogs : List CollectionC) :
    Except PyErr (List (CollectionC × List LinkC)) :=
  let themes_map := dictOf (fun c => c.id) (fun c => c) theme_catalogs
  variable_catalogs.mapM (fun vc => do
    let names ← get_theme_names_obj (.pyfunc "validate_catalog")
    let links ← names.mapM (fun tn => do
      let t ← dgetE themes_map tn
      .ok (⟨"related", t.id, "application/json", "Theme: " ++ t.title⟩ : LinkC))
    .ok (vc, links))

/-! ## `build.py`: the Catalog Builder (`convert_csvs`), projects sub-catalog -/

/-- A catalog tree node (`pystac.Catalog`/`Collection`): id, display title and
the ordered child list (`add_child` appends). -/
structure CatNode where
  id : String
  title : String
  children : List CatNode

/-- A project record as consumed by `convert_csvs` (only the fields the
projects sub-catalog construction reads). `id` is the slugified short name
(`load_orig_projects` applies `slugify` at load time). -/
structure ProjectR where
  id : String
  title : String
deriving DecidableEq, Repr

/-- Modelled from the spec: `collection_from_project` of the missing `stac.py`
produces a container whose identifier is the project's id (spec §3: Project
identity = slug(short_name)) and whose display title is the project's
title. -/
def collection_from_project (p : ProjectR) : CatNode :=
  ⟨p.id, p.title, []⟩

/-- The construction of the `projects` sub-catalog in `convert_csvs`
(build.py lines 86-88, 147-152 and 166-171): the catalog is created, and
`projects_catalog.add_children(sorted((collection_from_project(project) for
project in projects), key=lambda collection: collection.id))` is executed
twice, each call appending a freshly built sorted child list. -/
def convert_csvs_projects_catalog (projects : List ProjectR) : CatNode :=
  let children1 :=
    isortBy (fun a b => decide (a.id ≤ b.id)) (projects.map collection_from_project)
  let children2 :=
    isortBy (fun a b => decide (a.id ≤ b.id)) (projects.map collection_from_project)
  ⟨"projects", "Projects", children1 ++ children2⟩

/-! ## `origcsv.py`: the validation pass (`validate_csvs`) -/

/-- `parse_list(value, ";")` (origcsv.py lines 61-66): split, strip each item,
keep the non-empty results. -/
def parse_list (value : String) : List String :=
  ((splitOnChar ';' value.data).map (fun cs => String.mk (trimChars cs))).filter
    (fun s => s ≠ "")

/-- A row of the themes CSV as read by `validate_csvs` (only the `theme`
column is consulted). -/
structure ThemeRow where
  theme : String
deriving DecidableEq, Repr

/-- A row of the variables CSV: the `variable` name column and the raw
semicolon-separated `themes` column. -/
structure VariableRow where
  vname : String
  themes : String
deriving DecidableEq, Repr

/-- A row of the EO-missions CSV (`EO_Missions` column). -/
structure MissionRow where
  eo_mission : String
deriving DecidableEq, Repr

/-- A row of the projects CSV (`Short_Name` column). -/
structure ProjectRow where
  short_name : String
deriving DecidableEq, Repr

/-- A row of the products (or benchmarks) CSV as read by `validate_csvs`:
`name` holds the `Product` (resp. `Benchmark`) display-name column used as the
dict key; the remaining fields are the columns the checks read. -/
structure ProductRow where
  name : String
  project : String
  collection : Option String
  theme1 : String
  theme2 : String
  theme3 : String
  variables_ : String
  eo_missions : String
deriving DecidableEq, Repr

/-- A CSV file handed to `validate_csvs`: the number of header columns and the
parsed rows. -/
structure CsvFile (ρ : Type) where
  headerLen : Nat
  rows : List ρ
deriving DecidableEq, Repr

/-- `get_themes` (origcsv.py lines 25-26): the truthy `Theme1..Theme3`
columns. -/
def get_themes (r : ProductRow) : List String :=
  [r.theme1, r.theme2, r.theme3].filter (fun t => t ≠ "")

/-- The issue list built for a single product/benchmark record inside
`_validate_products` (origcsv.py lines 322-350), in source order: project
reference, collection presence, theme references, variable references,
mission references. -/
def record_issues (element name : String) (p : ProductRow)
    (PROJECTS : List (String × ProjectRow)) (THEMES : List (String × ThemeRow))
    (VARIABLES : List (String × VariableRow)) (MISSIONS : List (String × MissionRow)) :
    List String :=
  (if ¬ dmem PROJECTS p.project then
    [element ++ " '" ++ name ++ "' references non-existing project '" ++ p.project ++ "'"]
   else [])
  ++ (if p.collection = none ∨ p.collection = some "" then
    ["Product '" ++ name ++ "' has not collection linked please add collection for the product"]
   else [])
  ++ ((get_themes p).filter (fun t => ¬ dmem THEMES t)).map (fun t =>
    element ++ " '" ++ name ++ "' references non-existing theme '" ++ t ++ "'")
  ++ ((parse_list p.variables_).filter (fun v => ¬ dmem VARIABLES v)).map (fun v =>
    element ++ " '" ++ name ++ "' references non-existing variable '" ++ v ++ "'")
  ++ ((parse_list p.eo_missions).filter (fun msn => ¬ dmem MISSIONS msn)).map (fun msn =>
    element ++ " '" ++ name ++ "' references non-existing mission '" ++ msn ++ "'")

/-- `_validate_products` (origcsv.py lines 320-351) with the source's early
return: the `return _issues` statement sits inside the `for` loop, so only the
first record of the dict is examined; an empty dict falls off the loop and the
function returns Python `None`. -/
def validate_products_inner (rows : List (String × ProductRow)) (element : String)
    (PROJECTS : List (String × ProjectRow)) (THEMES : List (String × ThemeRow))
    (VARIABLES : List (String × VariableRow)) (MISSIONS : List (String × MissionRow)) :
    Option (List String) :=
  match rows with
  | [] => none
  | (name, p) :: _ => some (record_issues element name p PROJECTS THEMES VARIABLES MISSIONS)

/-- `issues + ret` where `ret` is `list | None`: adding `None` to a list
raises `TypeError`. -/
def pyListAddOpt (l : List String) (r : Option (List String)) :
    Except PyErr (List String) :=
  match r with
  | some r' => .ok (l ++ r')
  | none => .error .typeError

/-- The variable→theme reference check of `validate_csvs` (origcsv.py lines
311-318). `variable.get("themes") or variable.get("theme")` evaluates to
`None` when the `themes` column is empty (there is no `theme` column), and
`parse_list(None)` then raises `AttributeError`. -/
def variable_theme_issues (vars : List (String × VariableRow))
    (THEMES : List (String × ThemeRow)) : Except PyErr (List String) :=
  vars.foldlM
    (fun acc kv =>
      if kv.2.themes = "" then .error .attributeError
      else
        .ok (acc ++ ((parse_list kv.2.themes).filter (fun t => ¬ dmem THEMES t)).map
          (fun t => "Variable '" ++ kv.1 ++ "' references non-existing theme '" ++ t ++ "'")))
    []

/-- The expected column counts (`get_metadata_column`, origcsv.py lines
14-23). -/
def get_metadata_column_products : Nat := 26

/-- Expected `Projects` column count. -/
def get_metadata_column_projects : Nat := 10

/-- Expected `Themes` column count. -/
def get_metadata_column_themes : Nat := 4

/-- Expected `Variables` column count. -/
def get_metadata_column_variables : Nat := 4

/-- Expected `EO Missions` column count. -/
def get_metadata_column_eo_missions : Nat := 3

/-- Expected `Benchmarks` column count. -/
def get_metadata_column_benchmarks : Nat := 26

/-- `validate_csvs` (origcsv.py lines 225-356): build the six keyed dicts,
append the column-count issues in source order, run the variable→theme check,
then add `_validate_products(PRODUCTS, "Product")` and
`_validate_products(BENCHMARKS, "Benchmark")` with Python list `+`. -/
def validate_csvs (variables_file : CsvFile VariableRow) (themes_file : CsvFile ThemeRow)
    (missions_file : CsvFile MissionRow) (projects_file : CsvFile ProjectRow)
    (products_file benchmarks_file : CsvFile ProductRow) :
    Except PyErr (List String) := do
  let THEMES := dictOf (fun r => strTrim r.theme) (fun r => r) themes_file.rows
  let VARIABLES := dictOf (fun r => strTrim r.vname) (fun r => r) variables_file.rows
  let MISSIONS := dictOf (fun r => strTrim r.eo_mission) (fun r => r) missions_file.rows
  let PROJECTS := dictOf (fun r => strTrim r.short_name) (fun r => r) projects_file.rows
  let PRODUCTS := dictOf (fun r => strTrim r.name) (fun r => r) products_file.rows
  let BENCHMARKS := dictOf (fun r => strTrim r.name) (fun r => r) benchmarks_file.rows
  let issues :=
    (if products_file.headerLen ≠ get_metadata_column_products then
      ["Products csv file is corrupted, this csv must have " ++
        toString get_metadata_column_products ++
        "\n                 columns but " ++ toString products_file.headerLen ++ " got. "]
     else [])
    ++ (if projects_file.headerLen ≠ get_metadata_column_projects then
      ["Projects csv file is corrupted, this csv must have " ++
        toString get_metadata_column_projects ++
        " columns\n            but " ++ toString projects_file.headerLen ++ " got. "]
     else [])
    ++ (if variables_file.headerLen ≠ get_metadata_column_variables then
      ["Variables csv file is corrupted, this csv have " ++
        toString get_metadata_column_variables ++
        " columns\n            but " ++ toString variables_file.headerLen ++ " got. "]
     else [])
    ++ (if themes_file.headerLen ≠ get_metadata_column_themes then
      ["Themes csv file is corrupted, this csv have " ++
        toString get_metadata_column_themes ++
        " columns \n            but " ++ toString themes_file.headerLen ++ " got. "]
     else [])
    ++ (if missions_file.headerLen ≠ get_metadata_column_eo_missions then
      ["Eo Missions csv file is corrupted, this csv have " ++
        toString get_metadata_column_eo_missions ++
        " columns\n            but " ++ toString missions_file.headerLen ++ " got. "]
     else [])
    ++ (if benchmarks_file.headerLen ≠ get_metadata_column_benchmarks then
      ["Benchmarks csv file is corrupted, this csv have " ++
        toString get_metadata_column_benchmarks ++
        " columns\n                but " ++ toString benchmarks_file.headerLen ++ " got. "]
     else [])
  let vIss ← variable_theme_issues VARIABLES THEMES
  let issues := issues ++ vIss
  let issues ← pyListAddOpt issues
    (validate_products_inner PRODUCTS "Product" PROJECTS THEMES VARIABLES MISSIONS)
  let issues ← pyListAddOpt issues
    (validate_products_inner BENCHMARKS "Benchmark" PROJECTS THEMES VARIABLES MISSIONS)
  .ok issues

/-! ## Concrete records used by the per-claim theorems -/

/-- A product with a missing `start` in a two-member collection group. -/
def prodNoStart : ProductR :=
  ⟨"i1", "P1", some "c", some "r", ["v"], [], ["t"], none, some 20, none, none⟩

/-- A product with both dates present, sharing the group of `prodNoStart`. -/
def prodWithStart : ProductR :=
  ⟨"i2", "P2", some "c", some "r", ["v"], [], ["t"], some 10, some 30, none, none⟩

/-- A product declaring two variables (the `append(*xs)` arity bug). -/
def prodTwoVars : ProductR :=
  ⟨"i3", "P3", some "c", none, ["a", "b"], [], ["t"], some 1, some 2, none, none⟩

/-- A single product carrying a non-empty collection key (the one-member
group). -/
def prodLoneC4 : ProductR :=
  ⟨"i4", "P4", some "c", some "r", ["v"], ["m"], ["t"], some 1, some 2, none, none⟩

/-- First member of a two-member group whose `end` ties with `prodTieB`. -/
def prodTieA : ProductR :=
  ⟨"i5", "P5", some "c", none, ["v"], [], ["t"], some 1, some 9, none, none⟩

/-- Second member of the tied group: same maximal `end`, different project. -/
def prodTieB : ProductR :=
  ⟨"i6", "P6", some "c", none, ["v"], [], ["t"], some 2, some 9, none, none⟩

/-- The segmentation parent produced for `[prodLoneC4]`. -/
def segLoneC4 : ProductSegmentation :=
  ⟨"c", "P4", ["t"], some 1, none, some 2, none, "r", ["v"], ["m"]⟩

/-- The segmentation parent produced for `[prodTieA, prodTieB]`. -/
def segTieC5 : ProductSegmentation :=
  ⟨"c", "P6", ["t"], some 1, none, some 9, none, "", ["v"], []⟩

/-- A variable catalog declaring membership in theme `t`. -/
def varCatalogC2 : CollectionC :=
  ⟨"v1", "V1", "", ["t"], [], [], "", [], none, ""⟩

/-- The theme catalog with id `t` that `varCatalogC2` should be linked to. -/
def themeCatalogC2 : CollectionC :=
  ⟨"t", "T", "", [], [], [], "", [], none, ""⟩

/-- A catalog root for the metrics pass: one theme, one variable, one
eo-mission, one project, and one product owned by project `p1` that
references mission `M1`. -/
def rootC6 : RootC :=
  { themes := [⟨"water", "Water", "d", [], [], [], "", [], none, "w"⟩]
    variables_ := [⟨"sm", "SM", "d", ["Water"], [], [], "", [], none, ""⟩]
    eo_missions := [⟨"M1", "M 1", "", [], [], [], "", [], none, ""⟩]
    projects := [⟨"p1", "P 1", "", ["Water"], [], [], "", [], none, ""⟩]
    products := [⟨"prod1", "Prod 1", "", ["Water"], ["SM"], ["M1"], "p1",
      [(some ⟨2019⟩, some ⟨2021⟩)], none, ""⟩] }

/-- A catalog root for the confirmed metrics claim: one theme, one variable,
one mission, one project, and one product whose interval misses its end —
so it contributes no years yet is counted everywhere. -/
def rootC9 : RootC :=
  { themes := [⟨"water", "Water", "d", [], [], [], "", [], none, "w"⟩]
    variables_ := [⟨"sm", "SM", "d", ["Water"], [], [], "", [], none, ""⟩]
    eo_missions := [⟨"M1", "M 1", "", [], [], [], "", [], none, ""⟩]
    projects := [⟨"p1", "P 1", "", ["Water"], [], [], "", [], none, ""⟩]
    products := [⟨"prod1", "Prod 1", "", ["Water"], ["SM"], ["M1"], "p1",
      [(some ⟨2019⟩, none)], none, ""⟩] }

/-- The metrics document `caclulate_metrics` produces for `rootC9`. -/
def outC9 : GlobalOut :=
  { id := "cat"
    years := []
    numberOfProducts := 1
    numberOfProjects := 1
    numberOfVariables := 1
    numberOfThemes := 1
    numberOfMissions := 1
    themes := [⟨"Water", "d", none, "w", [], 1, 1, 1⟩]
    variables_ := [⟨"SM", "d", [], 1⟩]
    eo_missions := [⟨"M 1", [], 1, 0⟩] }

/-- Themes CSV for the validation-pass counterexample: the single theme
`Water`. -/
def themesFileC7 : CsvFile ThemeRow := ⟨4, [⟨"Water"⟩]⟩

/-- Variables CSV: one variable `SM` declared under theme `Water`. -/
def variablesFileC7 : CsvFile VariableRow := ⟨4, [⟨"SM", "Water"⟩]⟩

/-- EO-missions CSV: the single mission `M1`. -/
def missionsFileC7 : CsvFile MissionRow := ⟨3, [⟨"M1"⟩]⟩

/-- Projects CSV: the single project `P1`. -/
def projectsFileC7 : CsvFile ProjectRow := ⟨10, [⟨"P1"⟩]⟩

/-- Products CSV: `Prod1` is fully consistent; `Prod2` references the
non-existing theme `Bogus`. -/
def productsFileC7 : CsvFile ProductRow :=
  ⟨26, [⟨"Prod1", "P1", some "c", "Water", "", "", "SM", "M1"⟩,
        ⟨"Prod2", "P1", some "c", "Bogus", "", "", "SM", "M1"⟩]⟩

/-- Benchmarks CSV: one fully consistent benchmark. -/
def benchmarksFileC7 : CsvFile ProductRow :=
  ⟨26, [⟨"B1", "P1", some "c", "Water", "", "", "SM", "M1"⟩]⟩

/-! ## Lemmas: the stable-sort model -/

theorem mem_ordInsertBy {le : α → α → Bool} {x a : α} {l : List α} :
    a ∈ ordInsertBy le x l ↔ a = x ∨ a ∈ l := by
  induction l with
  | nil => simp [ordInsertBy]
  | cons y ys ih =>
      rw [ordInsertBy]
      by_cases hxy : le x y = true
      · rw [if_pos hxy]; simp
      · rw [if_neg hxy]
        simp only [List.mem_cons, ih]
        tauto

theorem length_ordInsertBy (le : α → α → Bool) (x : α) (l : List α) :
    (ordInsertBy le x l).length = l.length + 1 := by
  induction l with
  | nil => rfl
  | cons y ys ih =>
      by_cases hxy : le x y = true <;> simp [ordInsertBy, hxy, ih]

theorem isortBy_eq_nil_iff {le : α → α → Bool} {l : List α} :
    isortBy le l = [] ↔ l = [] := by
  cases l with
  | nil => simp [isortBy]
  | cons x xs =>
      simp only [isortBy]
      constructor
      · intro h
        have hlen := length_ordInsertBy le x (isortBy le xs)
        rw [h] at hlen
        simp at hlen
      · intro h
        exact absurd h (by simp)

theorem pairwise_ordInsertBy {k : α → Nat} {x : α} {l : List α}
    (hl : l.Pairwise (fun a b => k a ≤ k b)) :
    (ordInsertBy (keyLE k) x l).Pairwise (fun a b => k a ≤ k b) := by
  induction l with
  | nil => simp [ordInsertBy]
  | cons y ys ih =>
      rcases List.pairwise_cons.mp hl with ⟨hy, hys⟩
      by_cases hxy : keyLE k x y = true
      · have hxyn : k x ≤ k y := by simpa [keyLE] using hxy
        rw [ordInsertBy, if_pos hxy]
        refine List.pairwise_cons.mpr ⟨?_, hl⟩
        intro z hz
        rcases List.mem_cons.mp hz with rfl | hz
        · exact hxyn
        · exact le_trans hxyn (hy z hz)
      · have hyx : k y ≤ k x := by
          have : ¬ k x ≤ k y := by simpa [keyLE] using hxy
          omega
        rw [ordInsertBy, if_neg hxy]
        refine List.pairwise_cons.mpr ⟨?_, ih hys⟩
        intro z hz
        rcases mem_ordInsertBy.mp hz with rfl | hz
        · exact hyx
        · exact hy z hz

theorem pairwise_isortBy {k : α → Nat} (l : List α) :
    (isortBy (keyLE k) l).Pairwise (fun a b => k a ≤ k b) := by
  induction l with
  | nil => simp [isortBy]
  | cons x xs ih => exact pairwise_ordInsertBy ih

theorem getLast?_ordInsertBy {k : α → Nat} {x m : α} {s : List α}
    (hs : s.Pairwise (fun a b => k a ≤ k b)) (hm : s.getLast? = some m) :
    (ordInsertBy (keyLE k) x s).getLast? = some (if k x ≤ k m then m else x) := by
  induction s with
  | nil => simp at hm
  | cons y ys ih =>
      rcases List.pairwise_cons.mp hs with ⟨hy, hys⟩
      cases ys with
      | nil =>
          have hym : y = m := by simpa using hm
          subst hym
          by_cases hxy : k x ≤ k y
          · rw [ordInsertBy, if_pos (by simpa [keyLE] using hxy)]
            simp [hxy]
          · rw [ordInsertBy, if_neg (by simpa [keyLE] using hxy)]
            simp [hxy, ordInsertBy]
      | cons y' ys' =>
          have hm' : (y' :: ys').getLast? = some m := by
            rw [← List.getLast?_cons_cons]; exact hm
          have hmem : m ∈ y' :: ys' := List.mem_of_mem_getLast? hm'
          by_cases hxy : k x ≤ k y
          · have hxm : k x ≤ k m := le_trans hxy (hy m hmem)
            rw [ordInsertBy, if_pos (by simpa [keyLE] using hxy)]
            rw [List.getLast?_cons_cons, hm, if_pos hxm]
          · have ihr := ih hys hm'
            rw [ordInsertBy, if_neg (by simpa [keyLE] using hxy)]
            cases ht : ordInsertBy (keyLE k) x (y' :: ys') with
            | nil =>
                have := length_ordInsertBy (keyLE k) x (y' :: ys')
                rw [ht] at this
                simp at this
            | cons a t =>
                rw [ht] at ihr
                rw [List.getLast?_cons_cons]
                exact ihr

theorem getLast?_isortBy {k : α → Nat} (l : List α) :
    (isortBy (keyLE k) l).getLast? = lastMaxBy k l := by
  induction l with
  | nil => rfl
  | cons x xs ih =>
      cases hs : isortBy (keyLE k) xs with
      | nil =>
          have hxs : xs = [] := isortBy_eq_nil_iff.mp hs
          subst hxs
          simp [isortBy, ordInsertBy, lastMaxBy]
      | cons a t =>
          have hsome : ∃ m, lastMaxBy k xs = some m := by
            rw [← ih, hs]
            cases hgl : (a :: t).getLast? with
            | none =>
                rw [List.getLast?_eq_none_iff] at hgl
                exact absurd hgl (by simp)
            | some m => exact ⟨m, rfl⟩
          obtain ⟨m, hmx⟩ := hsome
          have h4 := getLast?_ordInsertBy (x := x) (pairwise_isortBy xs) (by rw [ih]; exact hmx)
          show (ordInsertBy (keyLE k) x (isortBy (keyLE k) xs)).getLast? = _
          rw [h4, lastMaxBy, hmx]
          by_cases hk : k x ≤ k m <;> simp [hk]

theorem lastMaxBy_ne_none {k : α → Nat} (x : α) (xs : List α) :
    lastMaxBy k (x :: xs) ≠ none := by
  rw [lastMaxBy]
  cases lastMaxBy k xs with
  | none => simp
  | some m => by_cases hk : k x ≤ k m <;> simp [hk]

theorem lastMaxBy_mem {k : α → Nat} :
    ∀ {l : List α} {m : α}, lastMaxBy k l = some m → m ∈ l := by
  intro l
  induction l with
  | nil => intro m h; simp [lastMaxBy] at h
  | cons x xs ih =>
      intro m h
      rw [lastMaxBy] at h
      cases hx : lastMaxBy k xs with
      | none =>
          rw [hx] at h
          have : x = m := by simpa using h
          subst this
          exact List.mem_cons_self x xs
      | some m' =>
          rw [hx] at h
          by_cases hk : k x ≤ k m'
          · have : m' = m := by simpa [hk] using h
            subst this
            exact List.mem_cons_of_mem x (ih hx)
          · have : x = m := by simpa [hk] using h
            subst this
            exact List.mem_cons_self x xs

theorem lastMaxBy_isMax {k : α → Nat} :
    ∀ {l : List α} {m : α}, lastMaxBy k l = some m → ∀ y ∈ l, k y ≤ k m := by
  intro l
  induction l with
  | nil => intro m h; simp [lastMaxBy] at h
  | cons x xs ih =>
      intro m h y hy
      rw [lastMaxBy] at h
      cases hx : lastMaxBy k xs with
      | none =>
          rw [hx] at h
          have hxm : x = m := by simpa using h
          subst hxm
          cases xs with
          | nil =>
              have : y = x := by simpa using hy
              subst this
              exact le_refl _
          | cons a t => exact absurd hx (lastMaxBy_ne_none a t)
      | some m' =>
          rw [hx] at h
          by_cases hk : k x ≤ k m'
          · have hmm : m' = m := by simpa [hk] using h
            subst hmm
            rcases List.mem_cons.mp hy with rfl | hy'
            · exact hk
            · exact ih hx y hy'
          · have hxm : x = m := by simpa [hk] using h
            subst hxm
            rcases List.mem_cons.mp hy with rfl | hy'
            · exact le_refl _
            · have := ih hx y hy'
              omega

/-! ## Lemmas: deduplication and `Except` -/

theorem mem_dedupFirstAux {l : List String} :
    ∀ {seen : List String} {a : String},
      a ∈ dedupFirstAux seen l ↔ a ∈ l ∧ a ∉ seen := by
  induction l with
  | nil => intro seen a; simp [dedupFirstAux]
  | cons x xs ih =>
      intro seen a
      rw [dedupFirstAux]
      by_cases hx : x ∈ seen
      · rw [if_pos hx, ih]
        constructor
        · rintro ⟨h1, h2⟩; exact ⟨List.mem_cons_of_mem x h1, h2⟩
        · rintro ⟨h1, h2⟩
          rcases List.mem_cons.mp h1 with rfl | h1'
          · exact absurd hx h2
          · exact ⟨h1', h2⟩
      · rw [if_neg hx]
        by_cases hax : a = x
        · subst hax
          simp [ih, hx]
        · simp only [List.mem_cons, hax, false_or, ih, List.mem_append,
            List.mem_singleton, or_false]
          tauto

theorem mem_dedupFirst {l : List String} {a : String} :
    a ∈ dedupFirst l ↔ a ∈ l := by
  rw [dedupFirst, mem_dedupFirstAux]
  simp

theorem except_bind_ok {ε α β : Type _} {x : Except ε α} {f : α → Except ε β} {b : β} :
    x >>= f = .ok b ↔ ∃ a, x = .ok a ∧ f a = .ok b := by
  cases x <;> simp [Bind.bind, Except.bind]

theorem bind_ok_left {ε α β : Type _} (a : α) (f : α → Except ε β) :
    ((Except.ok a : Except ε α) >>= f) = f a := rfl

theorem option_map_eq_some {o : Option β} {g : β → γ} {x : γ}
    (h : o.map g = some x) : ∃ v, o = some v ∧ g v = x := by
  cases o with
  | none => simp at h
  | some v => exact ⟨v, rfl, by simpa using h⟩

/-! ## Lemmas: inversion of the Segmentation Grouper -/

theorem segOfGroup_ok_inv {n : String} {g : List ProductR} {s : ProductSegmentation}
    (h : segOfGroup n g = .ok s) :
    ∃ vs es ts sortedStart sortedEnd f0 e0,
      collectLists g ([], [], []) = .ok (vs, es, ts) ∧
      pySortByKey (fun p => p.start) g = .ok sortedStart ∧
      pySortByKey (fun p => p.end_) g = .ok sortedEnd ∧
      sortedStart.head? = some f0 ∧ sortedEnd.reverse.head? = some e0 ∧
      s = { title := n
            project := e0.project
            themes := dedupFirst ts
            start := f0.start
            geometry := f0.geometry
            end_ := e0.end_
            released := f0.released
            region := joinComma (dedupFirst (g.filterMap
              (fun p => if truthyS p.region then p.region else none)))
            variables_ := dedupFirst vs
            eo_missions := dedupFirst es } := by
  unfold segOfGroup at h
  rw [except_bind_ok] at h
  obtain ⟨tri, htri, h⟩ := h
  obtain ⟨vs, es, ts⟩ := tri
  rw [except_bind_ok] at h
  obtain ⟨sortedStart, hss, h⟩ := h
  rw [except_bind_ok] at h
  obtain ⟨sortedEnd, hse, h⟩ := h
  cases hh1 : sortedStart.head? with
  | none =>
      rw [hh1] at h
      cases hh2 : sortedEnd.reverse.head? <;> rw [hh2] at h <;> simp at h
  | some f0 =>
      rw [hh1] at h
      cases hh2 : sortedEnd.reverse.head? with
      | none => rw [hh2] at h; simp at h
      | some e0 =>
          rw [hh2] at h
          simp only [Except.ok.injEq] at h
          exact ⟨vs, es, ts, sortedStart, sortedEnd, f0, e0,
            htri, hss, hse, hh1, hh2, h.symm⟩

theorem segOfGroup_ok_title {n : String} {g : List ProductR} {s : ProductSegmentation}
    (h : segOfGroup n g = .ok s) : s.title = n := by
  obtain ⟨vs, es, ts, ss, se, f0, e0, _, _, _, _, _, rfl⟩ := segOfGroup_ok_inv h
  rfl

theorem segOfGroup_ok_end_project {n : String} {g : List ProductR}
    {s : ProductSegmentation} (h : segOfGroup n g = .ok s) :
    ∃ m, lastMaxBy (fun p => p.end_.getD 0) g = some m ∧
      m ∈ g ∧ s.end_ = m.end_ ∧ s.project = m.project ∧
      ∀ p ∈ g, p.end_.getD 0 ≤ m.end_.getD 0 := by
  obtain ⟨vs, es, ts, ss, se, f0, e0, _, _, hse, _, hh2, rfl⟩ := segOfGroup_ok_inv h
  have hsort : se = isortBy (keyLE (fun p => p.end_.getD 0)) g := by
    unfold pySortByKey at hse
    by_cases hc : 2 ≤ g.length ∧ g.any (fun x => x.end_.isNone) = true
    · rw [if_pos hc] at hse; simp at hse
    · rw [if_neg hc] at hse
      simp only [Except.ok.injEq] at hse
      exact hse.symm
  have hlast : se.getLast? = some e0 := by
    rw [← List.head?_reverse]; exact hh2
  have hmx : lastMaxBy (fun p => p.end_.getD 0) g = some e0 := by
    rw [← getLast?_isortBy, ← hsort]; exact hlast
  exact ⟨e0, hmx, lastMaxBy_mem hmx, rfl, rfl, lastMaxBy_isMax hmx⟩

theorem gpsGo_ok {products : List ProductR} :
    ∀ {names : List String} {segs : List ProductSegmentation},
      gpsGo products names = .ok segs →
      segs.map (fun s => s.title) = names ∧
      ∀ s ∈ segs,
        segOfGroup s.title (products.filter (fun p => p.collection == some s.title)) =
          .ok s := by
  intro names
  induction names with
  | nil =>
      intro segs h
      simp only [gpsGo, Except.ok.injEq] at h
      subst h
      exact ⟨rfl, by intro s hs; simp at hs⟩
  | cons n ns ih =>
      intro segs h
      rw [gpsGo, except_bind_ok] at h
      obtain ⟨seg, hseg, h⟩ := h
      rw [except_bind_ok] at h
      obtain ⟨rest, hrest, h⟩ := h
      simp only [Except.ok.injEq] at h
      subst h
      obtain ⟨ht, hmem⟩ := ih hrest
      have htitle : seg.title = n := segOfGroup_ok_title hseg
      refine ⟨by simp [htitle, ht], ?_⟩
      intro s hs
      rcases List.mem_cons.mp hs with rfl | hs'
      · rw [htitle]; exact hseg
      · exact hmem s hs'

/-- The truthiness filter used for collection keys, characterised. -/
theorem truthy_filter_eq {c : Option String} {name : String} :
    ((if truthyS c then c else none) = some name) ↔ (c = some name ∧ name ≠ "") := by
  cases c with
  | none => simp [truthyS]
  | some s =>
      by_cases hs : s = ""
      · subst hs
        constructor
        · intro h
          rw [if_neg (by simp [truthyS])] at h
          exact absurd h (by simp)
        · rintro ⟨h1, h2⟩
          exact absurd (Option.some.inj h1).symm h2
      · rw [if_pos (by simp [truthyS, hs])]
        constructor
        · intro h
          refine ⟨h, ?_⟩
          rintro rfl
          exact hs (Option.some.inj h)
        · exact fun hp => hp.1

/-! ## Lemmas: splitting and parsing decimal dates -/

theorem splitOnCharAux_no_sep {sep : Char} :
    ∀ {cs acc : List Char}, sep ∉ cs →
      splitOnCharAux sep cs acc = [acc.reverse ++ cs] := by
  intro cs
  induction cs with
  | nil => intro acc _; simp [splitOnCharAux]
  | cons c cs ih =>
      intro acc h
      have hc : c ≠ sep := fun he => h (he ▸ List.mem_cons_self c cs)
      rw [splitOnCharAux, if_neg hc, ih (fun hm => h (List.mem_cons_of_mem c hm))]
      simp

theorem splitOnCharAux_append_sep {sep : Char} :
    ∀ {a : List Char} {b acc : List Char}, sep ∉ a →
      splitOnCharAux sep (a ++ sep :: b) acc =
        (acc.reverse ++ a) :: splitOnCharAux sep b [] := by
  intro a
  induction a with
  | nil =>
      intro b acc _
      rw [List.nil_append, splitOnCharAux, if_pos rfl]
      simp
  | cons x a' ih =>
      intro b acc h
      have hx : x ≠ sep := fun he => h (he ▸ List.mem_cons_self x a')
      rw [List.cons_append, splitOnCharAux, if_neg hx,
        ih (fun hm => h (List.mem_cons_of_mem x hm))]
      simp

theorem splitOnChar_two {sep : Char} {a b : List Char}
    (ha : sep ∉ a) (hb : sep ∉ b) :
    splitOnChar sep (a ++ sep :: b) = [a, b] := by
  rw [splitOnChar, splitOnCharAux_append_sep ha]
  rw [show splitOnCharAux sep b [] = splitOnChar sep b from rfl]
  rw [splitOnChar, splitOnCharAux_no_sep hb]
  simp

theorem splitOnChar_three {sep : Char} {a b c : List Char}
    (ha : sep ∉ a) (hb : sep ∉ b) (hc : sep ∉ c) :
    splitOnChar sep (a ++ sep :: (b ++ sep :: c)) = [a, b, c] := by
  rw [splitOnChar, splitOnCharAux_append_sep ha]
  rw [show splitOnCharAux sep (b ++ sep :: c) [] = splitOnChar sep (b ++ sep :: c) from rfl]
  rw [splitOnChar_two hb hc]
  simp

theorem digit_ne_dot {c : Char} (h : c.isDigit = true) : c ≠ '.' := by
  rintro rfl
  simp at h

theorem digit_not_whitespace {c : Char} (h : c.isDigit = true) :
    c.isWhitespace = false := by
  cases hw : c.isWhitespace with
  | false => rfl
  | true =>
      exfalso
      have hc : ((c = ' ' ∨ c = '\t') ∨ c = '\r') ∨ c = '\n' := by
        simpa [Char.isWhitespace] using hw
      rcases hc with ((rfl | rfl) | rfl) | rfl <;> simp at h

theorem no_dot_of_digits {cs : List Char} (h : ∀ c ∈ cs, c.isDigit = true) :
    '.' ∉ cs := fun hm => digit_ne_dot (h _ hm) rfl

theorem trimChars_digits {cs : List Char} (h : ∀ c ∈ cs, c.isDigit = true) :
    trimChars cs = cs := by
  have hdrop : ∀ ds : List Char, (∀ c ∈ ds, c.isDigit = true) →
      ds.dropWhile Char.isWhitespace = ds := by
    intro ds hds
    cases ds with
    | nil => rfl
    | cons d ds' =>
        rw [List.dropWhile_cons,
          digit_not_whitespace (hds d (List.mem_cons_self d ds'))]
        simp
  rw [trimChars, hdrop cs h, hdrop cs.reverse (fun c hc => h c (List.mem_reverse.mp hc)),
    List.reverse_reverse]

theorem pyInt_digits {cs : List Char} {n : Nat}
    (hd : ∀ c ∈ cs, c.isDigit = true) (hv : digitsVal? cs = some n) :
    pyInt (String.mk cs) = .ok (n : Int) := by
  have hne : cs ≠ [] := by
    intro h
    subst h
    simp [digitsVal?] at hv
  have hdata : (String.mk cs).data = cs := rfl
  rw [pyInt, hdata, trimChars_digits hd]
  cases cs with
  | nil => exact absurd rfl hne
  | cons c rest =>
      have hcdig := hd c (List.mem_cons_self c rest)
      have hcm : c ≠ '-' := by
        rintro rfl
        simp at hcdig
      rw [pyIntCore, if_neg hcm, hv]

theorem one_le_daysInMonth (y m : Int) : 1 ≤ daysInMonth y m := by
  unfold daysInMonth
  split
  · split <;> norm_num
  · split <;> norm_num

/-! ## Lemmas: the set model -/

theorem mem_sinsert {x y : Nat} : ∀ {l : List Nat}, y ∈ sinsert x l ↔ y = x ∨ y ∈ l := by
  intro l
  induction l with
  | nil => simp [sinsert]
  | cons z zs ih =>
      rw [sinsert]
      by_cases h1 : x < z
      · rw [if_pos h1]; simp
      · rw [if_neg h1]
        by_cases h2 : x = z
        · subst h2
          rw [if_pos rfl]
          simp only [List.mem_cons]
          tauto
        · rw [if_neg h2]
          simp only [List.mem_cons, ih]
          tauto

theorem mem_sunion {y : Nat} : ∀ {b a : List Nat}, y ∈ sunion a b ↔ y ∈ a ∨ y ∈ b := by
  intro b
  induction b with
  | nil => intro a; simp [sunion]
  | cons z zs ih =>
      intro a
      show y ∈ sunion (sinsert z a) zs ↔ _
      rw [ih, mem_sinsert]
      simp only [List.mem_cons]
      tauto

theorem mem_rangeSet {a b y : Nat} : y ∈ rangeSet a b ↔ a ≤ y ∧ y < b := by
  rw [rangeSet, List.mem_range'_1]
  omega

/-- A fold of `yearStep` over intervals that all miss an endpoint leaves the
accumulator unchanged. -/
theorem years_fold_skip :
    ∀ {ivs : List (Option DateC × Option DateC)} {acc : List Nat},
      (∀ iv ∈ ivs, iv.1 = none ∨ iv.2 = none) →
      ivs.foldl yearStep acc = acc := by
  intro ivs
  induction ivs with
  | nil => intro acc _; rfl
  | cons iv rest ih =>
      intro acc h
      obtain ⟨o1, o2⟩ := iv
      have hiv := h _ (List.mem_cons_self _ _)
      rw [List.foldl_cons]
      cases o1 with
      | none => exact ih (fun i hi => h i (List.mem_cons_of_mem _ hi))
      | some s =>
          cases o2 with
          | none => exact ih (fun i hi => h i (List.mem_cons_of_mem _ hi))
          | some e =>
              rcases hiv with h1 | h2
              · exact absurd h1 (by simp)
              · exact absurd h2 (by simp)

/-! ## Lemmas: the dict model -/

theorem dlookup_cons_self {k : String} {v : β} {rest : List (String × β)} :
    dlookup ((k, v) :: rest) k = some v := by
  rw [dlookup, List.find?_cons_of_pos _ (by simp)]
  rfl

theorem dlookup_cons_ne {k k' : String} {v : β} {rest : List (String × β)}
    (h : k ≠ k') : dlookup ((k, v) :: rest) k' = dlookup rest k' := by
  rw [dlookup, List.find?_cons_of_neg, dlookup]
  simp [h]

theorem dlookup_some_mem_keys {m : List (String × β)} {k : String} {v : β}
    (h : dlookup m k = some v) : k ∈ m.map (fun kv => kv.1) := by
  induction m with
  | nil => simp [dlookup] at h
  | cons kv rest ih =>
      obtain ⟨k0, v0⟩ := kv
      by_cases hk : k0 = k
      · subst hk
        exact List.mem_cons_self _ _
      · rw [dlookup_cons_ne hk] at h
        exact List.mem_cons_of_mem _ (ih h)

theorem dset_append {k : String} {v : β} :
    ∀ {m : List (String × β)}, k ∉ m.map (fun kv => kv.1) →
      dset m k v = m ++ [(k, v)] := by
  intro m
  induction m with
  | nil => intro _; rfl
  | cons kv rest ih =>
      obtain ⟨k0, v0⟩ := kv
      intro h
      have hne : k0 ≠ k := by
        intro he
        exact h (he ▸ List.mem_cons_self _ _)
      rw [dset, if_neg (by simp [hne]), ih (fun hm => h (List.mem_cons_of_mem _ hm))]
      simp

theorem foldl_dset_append {key : ρ → String} {mk : ρ → β} :
    ∀ {rows : List ρ} {m : List (String × β)},
      (rows.map key).Nodup → (∀ r ∈ rows, key r ∉ m.map (fun kv => kv.1)) →
      rows.foldl (fun acc r => dset acc (key r) (mk r)) m =
        m ++ rows.map (fun r => (key r, mk r)) := by
  intro rows
  induction rows with
  | nil => intro m _ _; simp
  | cons r rows' ih =>
      intro m hnd hdisj
      have hsplit : (∀ x ∈ rows', ¬ key x = key r) ∧ (rows'.map key).Nodup := by
        simpa using hnd
      rw [List.foldl_cons, dset_append (hdisj r (List.mem_cons_self _ _))]
      rw [ih hsplit.2]
      · simp
      · intro r' hr'
        simp only [List.map_append, List.mem_append, List.map_cons, List.map_nil,
          List.mem_singleton]
        rintro (hm | he)
        · exact hdisj r' (List.mem_cons_of_mem _ hr') hm
        · exact hsplit.1 r' hr' he

theorem dictOf_eq_map {key : ρ → String} {mk : ρ → β} {rows : List ρ}
    (hnd : (rows.map key).Nodup) :
    dictOf key mk rows = rows.map (fun r => (key r, mk r)) := by
  rw [dictOf, foldl_dset_append hnd (by intro r _ hm; simp at hm)]
  simp

theorem dlookup_map_rows {key : ρ → String} {mk : ρ → β} :
    ∀ {rows : List ρ} {k : String} {v : β},
      dlookup (rows.map (fun r => (key r, mk r))) k = some v →
      ∃ r ∈ rows, key r = k ∧ v = mk r := by
  intro rows
  induction rows with
  | nil => intro k v h; simp [dlookup] at h
  | cons r rows' ih =>
      intro k v h
      rw [List.map_cons] at h
      by_cases hk : key r = k
      · subst hk
        rw [dlookup_cons_self] at h
        exact ⟨r, List.mem_cons_self _ _, rfl, (Option.some.inj h).symm⟩
      · rw [dlookup_cons_ne hk] at h
        obtain ⟨r', hr', hkr', hv⟩ := ih h
        exact ⟨r', List.mem_cons_of_mem _ hr', hkr', hv⟩

theorem dlookup_map_rows_self {key : ρ → String} {mk : ρ → β} :
    ∀ {rows : List ρ} {r : ρ}, (rows.map key).Nodup → r ∈ rows →
      dlookup (rows.map (fun r' => (key r', mk r'))) (key r) = some (mk r) := by
  intro rows
  induction rows with
  | nil => intro r _ h; simp at h
  | cons r0 rows' ih =>
      intro r hnd hr
      rw [List.map_cons]
      have hsplit : (∀ x ∈ rows', ¬ key x = key r0) ∧ (rows'.map key).Nodup := by
        simpa using hnd
      rcases List.mem_cons.mp hr with rfl | hr'
      · exact dlookup_cons_self
      · have hne : key r0 ≠ key r := fun he => hsplit.1 r hr' he.symm
        rw [dlookup_cons_ne hne]
        exact ih hsplit.2 hr'

theorem keys_dmodifyT {k : String} {f : β → β} :
    ∀ {m : List (String × β)},
      (dmodifyT m k f).map (fun kv => kv.1) = m.map (fun kv => kv.1) := by
  intro m
  induction m with
  | nil => rfl
  | cons kv rest ih =>
      obtain ⟨k0, v0⟩ := kv
      rw [dmodifyT]
      by_cases hk : k0 = k
      · rw [if_pos (by simp [hk])]
        simp
      · rw [if_neg (by simp [hk])]
        simpa using ih

theorem dlookup_dmodifyT {k k' : String} {f : β → β} :
    ∀ {m : List (String × β)},
      dlookup (dmodifyT m k f) k' =
        if k' = k then (dlookup m k').map f else dlookup m k' := by
  intro m
  induction m with
  | nil =>
      by_cases h : k' = k <;> simp [h, dlookup, dmodifyT]
  | cons kv rest ih =>
      obtain ⟨k0, v0⟩ := kv
      rw [dmodifyT]
      by_cases h0 : k0 = k
      · subst h0
        rw [if_pos (by simp)]
        by_cases h' : k' = k0
        · subst h'
          rw [dlookup_cons_self, dlookup_cons_self, if_pos rfl]
          rfl
        · have hne : k0 ≠ k' := fun he => h' he.symm
          rw [dlookup_cons_ne hne, dlookup_cons_ne hne, if_neg h']
      · rw [if_neg (by simp [h0])]
        by_cases h' : k0 = k'
        · subst h'
          rw [dlookup_cons_self, dlookup_cons_self, if_neg h0]
        · rw [dlookup_cons_ne h', dlookup_cons_ne h', ih]

theorem dmodify_ok {k : String} {f : β → β} :
    ∀ {m m' : List (String × β)}, dmodify m k f = .ok m' → m' = dmodifyT m k f := by
  intro m
  induction m with
  | nil => intro m' h; simp [dmodify] at h
  | cons kv rest ih =>
      obtain ⟨k0, v0⟩ := kv
      intro m' h
      rw [dmodify] at h
      by_cases h0 : (k0 == k) = true
      · rw [if_pos h0] at h
        rw [dmodifyT, if_pos h0]
        exact (Option.some.inj (by simpa using h)).symm
      · rw [if_neg h0] at h
        rw [except_bind_ok] at h
        obtain ⟨rest', hrest', h⟩ := h
        rw [dmodifyT, if_neg h0]
        have := ih hrest'
        subst this
        exact (Option.some.inj (by simpa using h)).symm

/-! ## Lemmas: counter folds over the accumulator dicts -/

theorem option_map_congr {o : Option β} {f g : β → γ} (h : ∀ b, f b = g b) :
    o.map f = o.map g := by
  cases o <;> simp [h]

theorem keys_foldl_dmodifyT {tid : String → String} {f : β → β} :
    ∀ {names : List String} {m : List (String × β)},
      ((names.foldl (fun acc n => dmodifyT acc (tid n) f) m).map (fun kv => kv.1)) =
        m.map (fun kv => kv.1) := by
  intro names
  induction names with
  | nil => intro m; rfl
  | cons n ns ih =>
      intro m
      rw [List.foldl_cons, ih, keys_dmodifyT]

theorem dlookup_foldl_dmodifyT_add (g : β → Nat) (f : β → β) (tid : String → String)
    (hf : ∀ b, g (f b) = g b + 1) :
    ∀ {names : List String} {m : List (String × β)} {k : String},
      (dlookup (names.foldl (fun acc n => dmodifyT acc (tid n) f) m) k).map g =
        (dlookup m k).map (fun b => g b + (names.map tid).count k) := by
  intro names
  induction names with
  | nil =>
      intro m k
      simp
  | cons n ns ih =>
      intro m k
      rw [List.foldl_cons, ih, dlookup_dmodifyT]
      by_cases hk : k = tid n
      · rw [if_pos hk, Option.map_map]
        have hc : ((n :: ns).map tid).count k = ((ns.map tid).count k) + 1 := by
          simp [List.count_cons, hk]
        rw [hc]
        exact option_map_congr (fun b => by simp [Function.comp, hf]; omega)
      · rw [if_neg hk]
        have hc : ((n :: ns).map tid).count k = (ns.map tid).count k := by
          simp [List.count_cons, hk]
        rw [hc]

theorem dlookup_foldl_dmodifyT_keep (g : β → γ) (f : β → β) (tid : String → String)
    (hf : ∀ b, g (f b) = g b) :
    ∀ {names : List String} {m : List (String × β)} {k : String},
      (dlookup (names.foldl (fun acc n => dmodifyT acc (tid n) f) m) k).map g =
        (dlookup m k).map g := by
  intro names
  induction names with
  | nil => intro m k; rfl
  | cons n ns ih =>
      intro m k
      rw [List.foldl_cons, ih, dlookup_dmodifyT]
      by_cases hk : k = tid n
      · rw [if_pos hk, Option.map_map]
        exact option_map_congr (fun b => by simp [Function.comp, hf])
      · rw [if_neg hk]

theorem foldlM_dmodify_ok {f : β → β} {tid : String → String} :
    ∀ {names : List String} {m m' : List (String × β)},
      names.foldlM (fun acc n => dmodify acc (tid n) f) m = .ok m' →
      m' = names.foldl (fun acc n => dmodifyT acc (tid n) f) m := by
  intro names
  induction names with
  | nil =>
      intro m m' h
      rw [List.foldlM_nil] at h
      exact (Except.ok.inj h).symm
  | cons n ns ih =>
      intro m m' h
      rw [List.foldlM_cons, except_bind_ok] at h
      obtain ⟨m₁, hm₁, h⟩ := h
      rw [List.foldl_cons, ← dmodify_ok hm₁]
      exact ih h

theorem keys_addMission {m : List (String × MInfo)} {n : String} {years : List Nat} :
    (addMission m n years).map (fun kv => kv.1) = m.map (fun kv => kv.1) := by
  rw [addMission]
  cases dlookup m n with
  | none => rfl
  | some v => exact keys_dmodifyT

theorem dlookup_addMission {m : List (String × MInfo)} {n k : String} {years : List Nat} :
    dlookup (addMission m n years) k =
      if n = k then (dlookup m k).map (bumpMission years)
      else dlookup m k := by
  rw [addMission]
  cases hn : dlookup m n with
  | none =>
      by_cases hk : n = k
      · subst hk
        rw [if_pos rfl, hn]
        rfl
      · rw [if_neg hk]
  | some v =>
      rw [dlookup_dmodifyT]
      by_cases hk : k = n
      · subst hk
        rw [if_pos rfl]
      · rw [if_neg hk, if_neg (fun he => hk he.symm)]

theorem keys_foldl_addMission {years : List Nat} :
    ∀ {names : List String} {m : List (String × MInfo)},
      ((names.foldl (fun acc n => addMission acc n years) m).map (fun kv => kv.1)) =
        m.map (fun kv => kv.1) := by
  intro names
  induction names with
  | nil => intro m; rfl
  | cons n ns ih =>
      intro m
      rw [List.foldl_cons, ih, keys_addMission]

theorem dlookup_foldl_addMission_num {years : List Nat} :
    ∀ {names : List String} {m : List (String × MInfo)} {k : String},
      (dlookup (names.foldl (fun acc n => addMission acc n years) m) k).map
          (fun i => i.num_products) =
        (dlookup m k).map (fun i => i.num_products + names.count k) := by
  intro names
  induction names with
  | nil =>
      intro m k
      simp
  | cons n ns ih =>
      intro m k
      rw [List.foldl_cons, ih, dlookup_addMission]
      by_cases hk : n = k
      · rw [if_pos hk, Option.map_map]
        have hc : (n :: ns).count k = ns.count k + 1 := by
          simp [List.count_cons, hk]
        rw [hc]
        exact option_map_congr (fun i => by simp [Function.comp, bumpMission]; omega)
      · rw [if_neg hk]
        have hkb : ¬ k = n := fun he => hk he.symm
        have hc : (n :: ns).count k = ns.count k := by
          simp [List.count_cons, hkb]
        rw [hc]

/-! ## Lemmas: inversion of the metrics pass -/

theorem map_snd_eq {m : List (String × β)} {g : β → γ} {h : String → γ} :
    (m.map (fun kv => kv.1)).Nodup →
    (∀ k v, dlookup m k = some v → g v = h k) →
    m.map (fun kv => g kv.2) = m.map (fun kv => h kv.1) := by
  induction m with
  | nil => intro _ _; rfl
  | cons kv rest ih =>
      obtain ⟨k0, v0⟩ := kv
      intro hnd hl
      have hsplit : (∀ x : β, (k0, x) ∉ rest) ∧ (rest.map (fun kv => kv.1)).Nodup := by
        simpa using hnd
      rw [List.map_cons, List.map_cons]
      congr 1
      · exact hl k0 v0 dlookup_cons_self
      · apply ih hsplit.2
        intro k v hkv
        apply hl
        have hne : k0 ≠ k := by
          intro he
          subst he
          obtain ⟨b, hb, hbk⟩ := List.mem_map.mp (dlookup_some_mem_keys hkv)
          obtain ⟨b1, b2⟩ := b
          cases hbk
          exact hsplit.1 b2 hb
        rw [dlookup_cons_ne hne]
        exact hkv

theorem map_key_eq (F : String → γ) {m : List (String × β)} {ks : List String}
    (hk : m.map (fun kv => kv.1) = ks) :
    m.map (fun kv => F kv.1) = ks.map F := by
  rw [← hk, List.map_map]
  rfl

theorem productStep_ok_inv {st : PState} {p : CollectionC} {st₁ : PState}
    (h : productStep st p = .ok st₁) :
    st₁.tinfos = (get_theme_names p).foldl
        (fun m tn => dmodifyT m (get_theme_id tn)
          (bumpThemeProd (extract_collection_years p)))
        st.tinfos ∧
    st₁.vinfos = p.variables_.foldl
        (fun m vn => dmodifyT m (get_variable_id vn)
          (bumpVarProd (extract_collection_years p)))
        st.vinfos ∧
    st₁.minfos = p.missions.foldl
        (fun m mn => addMission m mn (extract_collection_years p)) st.minfos := by
  unfold productStep at h
  rw [except_bind_ok] at h
  obtain ⟨tin, htin, h⟩ := h
  rw [except_bind_ok] at h
  obtain ⟨vin, hvin, h⟩ := h
  have h' := (Except.ok.inj h).symm
  subst h'
  exact ⟨foldlM_dmodify_ok htin, foldlM_dmodify_ok hvin, rfl⟩

theorem productLoop_ok_inv :
    ∀ {products : List CollectionC} {st st' : PState},
      products.foldlM productStep st = .ok st' →
      (st'.tinfos.map (fun kv => kv.1) = st.tinfos.map (fun kv => kv.1) ∧
       st'.vinfos.map (fun kv => kv.1) = st.vinfos.map (fun kv => kv.1) ∧
       st'.minfos.map (fun kv => kv.1) = st.minfos.map (fun kv => kv.1)) ∧
      (∀ k, (dlookup st'.tinfos k).map (fun b => b.num_products) =
        (dlookup st.tinfos k).map (fun b => b.num_products +
          (products.map
            (fun p => ((get_theme_names p).map get_theme_id).count k)).sum)) ∧
      (∀ k, (dlookup st'.vinfos k).map (fun b => b.num_products) =
        (dlookup st.vinfos k).map (fun b => b.num_products +
          (products.map (fun p => (p.variables_.map get_variable_id).count k)).sum)) ∧
      (∀ k, (dlookup st'.minfos k).map (fun b => b.num_products) =
        (dlookup st.minfos k).map (fun b => b.num_products +
          (products.map (fun p => p.missions.count k)).sum)) := by
  intro products
  induction products with
  | nil =>
      intro st st' h
      rw [List.foldlM_nil] at h
      have he := Except.ok.inj h
      subst he
      exact ⟨⟨rfl, rfl, rfl⟩, fun k => by simp, fun k => by simp, fun k => by simp⟩
  | cons p ps ih =>
      intro st st' h
      rw [List.foldlM_cons, except_bind_ok] at h
      obtain ⟨st₁, hst₁, h⟩ := h
      obtain ⟨hti, hvi, hmi⟩ := productStep_ok_inv hst₁
      obtain ⟨⟨hk1, hk2, hk3⟩, hT, hV, hM⟩ := ih h
      refine ⟨⟨?_, ?_, ?_⟩, ?_, ?_, ?_⟩
      · rw [hk1, hti, keys_foldl_dmodifyT]
      · rw [hk2, hvi, keys_foldl_dmodifyT]
      · rw [hk3, hmi, keys_foldl_addMission]
      · intro k
        rw [hT k, hti,
          dlookup_foldl_dmodifyT_add
            (fun b : TInfo => b.num_products +
              (ps.map (fun q => ((get_theme_names q).map get_theme_id).count k)).sum)
            (bumpThemeProd (extract_collection_years p))
            get_theme_id
            (fun b => by simp [bumpThemeProd]; omega)]
        refine option_map_congr (fun b => ?_)
        simp only [List.map_cons, List.sum_cons]
        omega
      · intro k
        rw [hV k, hvi,
          dlookup_foldl_dmodifyT_add
            (fun b : VInfo => b.num_products +
              (ps.map (fun q => (q.variables_.map get_variable_id).count k)).sum)
            (bumpVarProd (extract_collection_years p))
            get_variable_id
            (fun b => by simp [bumpVarProd]; omega)]
        refine option_map_congr (fun b => ?_)
        simp only [List.map_cons, List.sum_cons]
        omega
      · intro k
        rw [hM k, hmi]
        -- fold of addMission with a post-shifted projection
        have haux : ∀ (names : List String) (m : List (String × MInfo)) (C : Nat),
            (dlookup (names.foldl
                (fun acc n => addMission acc n (extract_collection_years p)) m) k).map
              (fun b => b.num_products + C) =
            (dlookup m k).map (fun b => b.num_products + (names.count k + C)) := by
          intro names
          induction names with
          | nil => intro m C; simp
          | cons n ns ihn =>
              intro m C
              rw [List.foldl_cons, ihn, dlookup_addMission]
              by_cases hk : n = k
              · rw [if_pos hk, Option.map_map]
                have hc : (n :: ns).count k = ns.count k + 1 := by
                  simp [List.count_cons, hk]
                rw [hc]
                exact option_map_congr (fun b => by simp [Function.comp, bumpMission]; omega)
              · rw [if_neg hk]
                have hkb : ¬ k = n := fun he => hk he.symm
                have hc : (n :: ns).count k = ns.count k := by
                  simp [List.count_cons, hkb]
                rw [hc]
        rw [haux]
        refine option_map_congr (fun b => ?_)
        simp only [List.map_cons, List.sum_cons]

theorem projects_fold_keep {pjs : List CollectionC} :
    ∀ {tin tin' : List (String × TInfo)},
      pjs.foldlM projectThemeStep tin = .ok tin' →
      tin'.map (fun kv => kv.1) = tin.map (fun kv => kv.1) ∧
      ∀ k, (dlookup tin' k).map (fun b => b.num_products) =
        (dlookup tin k).map (fun b => b.num_products) := by
  induction pjs with
  | nil =>
      intro tin tin' h
      rw [List.foldlM_nil] at h
      have he := Except.ok.inj h
      subst he
      exact ⟨rfl, fun k => rfl⟩
  | cons pj pjs' ih =>
      intro tin tin' h
      rw [List.foldlM_cons, except_bind_ok] at h
      obtain ⟨tin₁, h₁, h⟩ := h
      unfold projectThemeStep at h₁
      have e₁ := foldlM_dmodify_ok h₁
      obtain ⟨hk, hp⟩ := ih h
      constructor
      · rw [hk, e₁, keys_foldl_dmodifyT]
      · intro k
        rw [hp k, e₁,
          dlookup_foldl_dmodifyT_keep (fun b : TInfo => b.num_products)
            bumpThemeProj get_theme_id (fun b => rfl)]

theorem crossprop_fold_keep {vlist : List (String × VInfo)} :
    ∀ {tin tin' : List (String × TInfo)},
      vlist.foldlM
        (fun m kv =>
          kv.2.themes.foldlM
            (fun m' tn => dmodify m' (get_theme_id tn) bumpThemeVars)
            m)
        tin = .ok tin' →
      tin'.map (fun kv => kv.1) = tin.map (fun kv => kv.1) ∧
      ∀ k, (dlookup tin' k).map (fun b => b.num_products) =
        (dlookup tin k).map (fun b => b.num_products) := by
  induction vlist with
  | nil =>
      intro tin tin' h
      rw [List.foldlM_nil] at h
      have he := Except.ok.inj h
      subst he
      exact ⟨rfl, fun k => rfl⟩
  | cons kv vlist' ih =>
      intro tin tin' h
      rw [List.foldlM_cons, except_bind_ok] at h
      obtain ⟨tin₁, h₁, h⟩ := h
      have e₁ := foldlM_dmodify_ok h₁
      obtain ⟨hk, hp⟩ := ih h
      constructor
      · rw [hk, e₁, keys_foldl_dmodifyT]
      · intro k
        rw [hp k, e₁,
          dlookup_foldl_dmodifyT_keep (fun b : TInfo => b.num_products)
            bumpThemeVars get_theme_id (fun b => rfl)]

/-! ## Claim C1 -/

/-- C1 (refuted; the code crashes where the claim promises safety): on the
two-member group `{prodNoStart, prodWithStart}` sharing the non-empty
collection key `"c"`, where `prodNoStart.start = none`, the Segmentation
Grouper does not ignore the absent `start` — the comparison inside
`sorted(..., key=lambda x: x.start)` raises `TypeError`, so
`get_product_segmentation` raises instead of returning a group. -/
theorem c1_grouper_raises_on_absent_start :
    prodNoStart.start = none ∧ prodNoStart.collection = prodWithStart.collection ∧
    get_product_segmentation [prodNoStart, prodWithStart] = .error .typeError := by
  refine ⟨rfl, rfl, ?_⟩
  decide

/-! ## Claim C2 -/

/-- C2 (refuted; the code crashes where the claim promises linking): with one
variable catalog declaring membership in theme `t` and a theme catalog of
that id present, the variable→theme loop of `link_collections` raises
`AttributeError` — the source passes the module-level function
`validate_catalog` to `get_theme_names` instead of the loop's
`variable_catalog` — so no relation edge is ever added. -/
theorem c2_linker_raises_attribute_error :
    varCatalogC2.themes = ["t"] ∧ themeCatalogC2.id = "t" ∧
    link_collections_variables [varCatalogC2] [themeCatalogC2] =
      .error .attributeError := by
  refine ⟨rfl, rfl, ?_⟩
  decide

/-! ## Claim C3 -/

/-- C3 (refuted; the code crashes on the very inputs the claim covers): on the
one-member group of `prodTwoVars`, whose `variables` list has two elements,
`variables.append(*product.variables)` raises `TypeError` (`list.append`
takes exactly one argument), so `get_product_segmentation` raises instead of
producing the deduplicated union `["a", "b"]`. -/
theorem c3_grouper_raises_on_two_variables :
    prodTwoVars.variables_ = ["a", "b"] ∧
    get_product_segmentation [prodTwoVars] = .error .typeError := by
  refine ⟨rfl, ?_⟩
  decide

/-! ## Claim C6 -/

/-- C6 (refuted; `caclulate_metrics` never fills the field): on `rootC6`,
project `p1` owns the only product and that product references mission `M1`,
so the claim demands `numberOfProjects = 1` in the mission summary; the
metrics pass emits `numberOfProjects = 0` — the eo-mission loop of
`caclulate_metrics` increments the product counter and merges years but never
adds the owning project. -/
theorem c6_mission_project_count_stays_zero :
    ((rootC6.products.filter (fun p => "M1" ∈ p.missions)).map
        (fun p => p.project)).dedup = ["p1"] ∧
    (caclulate_metrics "OSC-Catalog" rootC6).map
        (fun out => out.eo_missions.map (fun msn => msn.numberOfProjects)) =
      .ok [0] := by
  refine ⟨by decide, ?_⟩
  decide

/-! ## Claim C7 -/

/-- C7 (refuted; records after the first are never checked): `Prod2`
references the non-existing theme `Bogus`, yet `validate_csvs` returns an
empty issue list — `_validate_products` returns from inside its `for` loop
after examining only the first record — instead of the single issue string
naming `Bogus` and `Prod2` that the claim demands. -/
theorem c7_validation_misses_second_record :
    "Bogus" ∈ get_themes (⟨"Prod2", "P1", some "c", "Bogus", "", "", "SM", "M1"⟩ : ProductRow) ∧
    themesFileC7.rows.all (fun r => r.theme ≠ "Bogus") ∧
    validate_csvs variablesFileC7 themesFileC7 missionsFileC7 projectsFileC7
      productsFileC7 benchmarksFileC7 = .ok [] := by
  refine ⟨by decide, by decide, ?_⟩
  decide

/-! ## Claim C8 -/

/-- C8 (refuted; the projects sub-container gets every child twice): for the
single project `a-proj`, `convert_csvs` executes the `add_children(sorted(...))`
call for the projects catalog twice, so the sibling ids are
`["a-proj", "a-proj"]` — two children for one distinct project, and the
sibling id set is not duplicate-free. -/
theorem c8_projects_children_duplicated :
    ((convert_csvs_projects_catalog [⟨"a-proj", "A"⟩]).children.map (fun c => c.id)) =
      ["a-proj", "a-proj"] ∧
    ¬ ((convert_csvs_projects_catalog [⟨"a-proj", "A"⟩]).children.map
        (fun c => c.id)).Nodup := by
  refine ⟨by decide, by decide⟩

/-! ## Claim C4: counterexample -/

/-- C4 (the "two or more" half is refuted): `prodLoneC4` is the only product
with collection `"c"`, yet `get_product_segmentation` emits a
`ProductSegmentation` titled `"c"` — a segmentation parent exists already for
a group of size one. -/
theorem c4_counterexample_singleton_group :
    (get_product_segmentation [prodLoneC4]).map
        (fun segs => segs.map (fun s => s.title)) = .ok ["c"] ∧
    ([prodLoneC4].filter (fun p => p.collection == some "c")).length = 1 := by
  refine ⟨by decide, by decide⟩

/-- C4 (amended: "two or more" becomes "one or more"): whenever
`get_product_segmentation` returns, the emitted titles are exactly the
distinct truthy collection keys in order of first appearance
(`collectionKeys`), and a `ProductSegmentation` with a given collection key
exists in the output if and only if at least one product carries that
non-empty collection value; records with an empty or absent collection are
skipped. -/
theorem c4_amended_existence_and_order (products : List ProductR)
    (segs : List ProductSegmentation)
    (h : get_product_segmentation products = .ok segs) :
    segs.map (fun s => s.title) = collectionKeys products ∧
    ∀ name : String,
      (∃ s ∈ segs, s.title = name) ↔
        ((∃ p ∈ products, p.collection = some name) ∧ name ≠ "") := by
  unfold get_product_segmentation at h
  obtain ⟨ht, _⟩ := gpsGo_ok h
  refine ⟨ht, ?_⟩
  intro name
  have hmem : (∃ s ∈ segs, s.title = name) ↔ name ∈ segs.map (fun s => s.title) := by
    simp
  rw [hmem, ht, collectionKeys, mem_dedupFirst, List.mem_filterMap]
  constructor
  · rintro ⟨p, hp, hpc⟩
    have hc := truthy_filter_eq.mp hpc
    exact ⟨⟨p, hp, hc.1⟩, hc.2⟩
  · rintro ⟨⟨p, hp, hpc⟩, hne⟩
    exact ⟨p, hp, truthy_filter_eq.mpr ⟨hpc, hne⟩⟩

/-- Witness for `c4_amended_existence_and_order`: the single-product input
`[prodLoneC4]` yields exactly the segmentation parent `segLoneC4` titled
`"c"`. -/
theorem c4_amended_existence_and_order_witness :
    [segLoneC4].map (fun s => s.title) = collectionKeys [prodLoneC4] ∧
    ∀ name : String,
      (∃ s ∈ [segLoneC4], s.title = name) ↔
        ((∃ p ∈ [prodLoneC4], p.collection = some name) ∧ name ≠ "") :=
  c4_amended_existence_and_order [prodLoneC4] [segLoneC4] (by decide)

/-! ## Claim C5: counterexample -/

/-- C5 (the tie-break direction is refuted): `prodTieA` and `prodTieB` share
collection `"c"` and the same maximal `end`; `prodTieA` occurs first, so the
claim demands `project = "P5"`, but the grouper (stable sort followed by
`reversed(...)[0]`) takes the project of the member occurring last:
`"P6"`. -/
theorem c5_counterexample_tie_goes_to_last :
    prodTieA.end_ = prodTieB.end_ ∧
    (get_product_segmentation [prodTieA, prodTieB]).map
        (fun segs => segs.map (fun s => s.project)) = .ok ["P6"] := by
  refine ⟨by decide, ?_⟩
  decide

/-- C5 (amended: ties go to the member occurring last): whenever
`get_product_segmentation` returns, every emitted segmentation parent carries
the `end` and the `project` of the member of its collection group given by
`lastMaxBy` on the `end` key — the member with the maximal `end`, ties broken
by the member occurring last in the input order — and that member's `end` is
maximal over the whole group. -/
theorem c5_amended_end_and_project (products : List ProductR)
    (segs : List ProductSegmentation)
    (h : get_product_segmentation products = .ok segs)
    (seg : ProductSegmentation) (hs : seg ∈ segs) :
    ∃ m, lastMaxBy (fun p => p.end_.getD 0)
          (products.filter (fun p => p.collection == some seg.title)) = some m ∧
      m ∈ products.filter (fun p => p.collection == some seg.title) ∧
      seg.end_ = m.end_ ∧ seg.project = m.project ∧
      ∀ p ∈ products.filter (fun p => p.collection == some seg.title),
        p.end_.getD 0 ≤ m.end_.getD 0 := by
  unfold get_product_segmentation at h
  obtain ⟨_, hmem⟩ := gpsGo_ok h
  exact segOfGroup_ok_end_project (hmem seg hs)

/-- Witness for `c5_amended_end_and_project`: on the tied two-member group
`[prodTieA, prodTieB]` the produced parent `segTieC5` takes `end` and
`project` from the last maximal member. -/
theorem c5_amended_end_and_project_witness :
    ∃ m, lastMaxBy (fun p => p.end_.getD 0)
          ([prodTieA, prodTieB].filter (fun p => p.collection == some segTieC5.title)) =
        some m ∧
      m ∈ [prodTieA, prodTieB].filter (fun p => p.collection == some segTieC5.title) ∧
      segTieC5.end_ = m.end_ ∧ segTieC5.project = m.project ∧
      ∀ p ∈ [prodTieA, prodTieB].filter (fun p => p.collection == some segTieC5.title),
        p.end_.getD 0 ≤ m.end_.getD 0 :=
  c5_amended_end_and_project [prodTieA, prodTieB] [segTieC5] (by decide) segTieC5 (by decide)

/-! ## Claim C10: counterexample -/

/-- C10 (totality on well-formed inputs is refuted): `"2020.12"` is a
well-formed one-dot numeric string, but the month shift `int(month) + 1`
produces 13 and `datetime.date` raises `ValueError`, so `parse_decimal_date`
raises instead of returning a date. -/
theorem c10_counterexample_month_twelve :
    parse_decimal_date (some "2020.12") = .error .valueError := by
  decide

/-- C10 (amended: totality holds only when the — possibly shifted — components
form a valid calendar date): `parse_decimal_date` returns `None` for an
absent or empty input and for any input with three or more dots; `date(Y,1,1)`
for a zero-dot digit string `Y`; `date(Y, M+1, 1)` — the month shifted
forward by one — for a one-dot input `Y.M` with `M ≤ 11`; and `date(Y, M, D)`
for a two-dot input `Y.M.D` whose components are in range. For `M = 12` the
one-dot branch raises `ValueError` (see the counterexample), so the function
is not total on all well-formed numeric strings. -/
theorem c10_amended_parse_decimal_date :
    (parse_decimal_date none = .ok none ∧ parse_decimal_date (some "") = .ok none) ∧
    (∀ (a : List Char) (y : Nat), (∀ ch ∈ a, ch.isDigit = true) →
      digitsVal? a = some y → 1 ≤ y → y ≤ 9999 →
      parse_decimal_date (some (String.mk a)) = .ok (some ⟨(y : Int), 1, 1⟩)) ∧
    (∀ (a b : List Char) (y m : Nat), (∀ ch ∈ a, ch.isDigit = true) →
      (∀ ch ∈ b, ch.isDigit = true) →
      digitsVal? a = some y → digitsVal? b = some m →
      1 ≤ y → y ≤ 9999 → m ≤ 11 →
      parse_decimal_date (some (String.mk (a ++ '.' :: b))) =
        .ok (some ⟨(y : Int), (m : Int) + 1, 1⟩)) ∧
    (∀ (a b c : List Char) (y m d : Nat), (∀ ch ∈ a, ch.isDigit = true) →
      (∀ ch ∈ b, ch.isDigit = true) → (∀ ch ∈ c, ch.isDigit = true) →
      digitsVal? a = some y → digitsVal? b = some m → digitsVal? c = some d →
      1 ≤ y → y ≤ 9999 → 1 ≤ m → m ≤ 12 → 1 ≤ d →
      (d : Int) ≤ daysInMonth (y : Int) (m : Int) →
      parse_decimal_date (some (String.mk (a ++ '.' :: (b ++ '.' :: c)))) =
        .ok (some ⟨(y : Int), (m : Int), (d : Int)⟩)) ∧
    (∀ s : String, 3 ≤ s.data.count '.' → parse_decimal_date (some s) = .ok none) := by
  refine ⟨⟨by decide, by decide⟩, ?_, ?_, ?_, ?_⟩
  · intro a y hd hv h1 h2
    have hne : ¬ (String.mk a).data = [] := by
      intro h
      have ha : a = [] := h
      subst ha
      simp [digitsVal?] at hv
    have hcount : (String.mk a).data.count '.' = 0 :=
      List.count_eq_zero.mpr (no_dot_of_digits hd)
    have hpy : pyInt (String.mk a) = .ok (y : Int) := pyInt_digits hd hv
    have hcond : 1 ≤ (y : Int) ∧ (y : Int) ≤ 9999 ∧ (1 : Int) ≤ 1 ∧ (1 : Int) ≤ 12 ∧
        (1 : Int) ≤ 1 ∧ (1 : Int) ≤ daysInMonth (y : Int) 1 :=
      ⟨by omega, by omega, le_refl _, by norm_num, le_refl _, one_le_daysInMonth _ _⟩
    rw [parse_decimal_date, if_neg hne, hcount, if_pos rfl, hpy, bind_ok_left,
      mkDate, if_pos hcond, bind_ok_left]
  · intro a b y m hda hdb hva hvb h1 h2 hm
    have hnda := no_dot_of_digits hda
    have hndb := no_dot_of_digits hdb
    have hne : ¬ (String.mk (a ++ '.' :: b)).data = [] := by
      intro h
      have ha : a ++ '.' :: b = [] := h
      simp at ha
    have hcount : (String.mk (a ++ '.' :: b)).data.count '.' = 1 := by
      have hca : a.count '.' = 0 := List.count_eq_zero.mpr hnda
      have hcb : b.count '.' = 0 := List.count_eq_zero.mpr hndb
      show (a ++ '.' :: b).count '.' = 1
      rw [List.count_append, hca, List.count_cons_self, hcb]
    have hsplit : splitOnChar '.' ((String.mk (a ++ '.' :: b)).data) = [a, b] :=
      splitOnChar_two hnda hndb
    have hpya : pyInt (String.mk a) = .ok (y : Int) := pyInt_digits hda hva
    have hpyb : pyInt (String.mk b) = .ok (m : Int) := pyInt_digits hdb hvb
    have hcond : 1 ≤ (y : Int) ∧ (y : Int) ≤ 9999 ∧ (1 : Int) ≤ (m : Int) + 1 ∧
        (m : Int) + 1 ≤ 12 ∧ (1 : Int) ≤ 1 ∧
        (1 : Int) ≤ daysInMonth (y : Int) ((m : Int) + 1) :=
      ⟨by omega, by omega, by omega, by omega, le_refl _, one_le_daysInMonth _ _⟩
    rw [parse_decimal_date, if_neg hne, hcount, if_neg (by norm_num), if_pos rfl, hsplit]
    show ((pyInt (String.mk a)).bind fun y' =>
        (pyInt (String.mk b)).bind fun m' =>
          (mkDate y' (m' + 1) 1).bind fun dt => .ok (some dt)) = _
    rw [hpya, Except.bind, hpyb, Except.bind, mkDate, if_pos hcond, Except.bind]
  · intro a b c y m d hda hdb hdc hva hvb hvc h1 h2 hm1 hm2 hd1 hd2
    have hnda := no_dot_of_digits hda
    have hndb := no_dot_of_digits hdb
    have hndc := no_dot_of_digits hdc
    have hne : ¬ (String.mk (a ++ '.' :: (b ++ '.' :: c))).data = [] := by
      intro h
      have ha : a ++ '.' :: (b ++ '.' :: c) = [] := h
      simp at ha
    have hcount : (String.mk (a ++ '.' :: (b ++ '.' :: c))).data.count '.' = 2 := by
      have hca : a.count '.' = 0 := List.count_eq_zero.mpr hnda
      have hcb : b.count '.' = 0 := List.count_eq_zero.mpr hndb
      have hcc : c.count '.' = 0 := List.count_eq_zero.mpr hndc
      show (a ++ '.' :: (b ++ '.' :: c)).count '.' = 2
      rw [List.count_append, hca, List.count_cons_self, List.count_append, hcb,
        List.count_cons_self, hcc]
    have hsplit : splitOnChar '.' ((String.mk (a ++ '.' :: (b ++ '.' :: c))).data) =
        [a, b, c] := splitOnChar_three hnda hndb hndc
    have hpya : pyInt (String.mk a) = .ok (y : Int) := pyInt_digits hda hva
    have hpyb : pyInt (String.mk b) = .ok (m : Int) := pyInt_digits hdb hvb
    have hpyc : pyInt (String.mk c) = .ok (d : Int) := pyInt_digits hdc hvc
    have hcond : 1 ≤ (y : Int) ∧ (y : Int) ≤ 9999 ∧ (1 : Int) ≤ (m : Int) ∧
        (m : Int) ≤ 12 ∧ (1 : Int) ≤ (d : Int) ∧
        (d : Int) ≤ daysInMonth (y : Int) (m : Int) :=
      ⟨by omega, by omega, by omega, by omega, by omega, hd2⟩
    rw [parse_decimal_date, if_neg hne, hcount, if_neg (by norm_num),
      if_neg (by norm_num), if_pos rfl, hsplit]
    show ((pyInt (String.mk a)).bind fun y' =>
        (pyInt (String.mk b)).bind fun m' =>
          (pyInt (String.mk c)).bind fun d' =>
            (mkDate y' m' d').bind fun dt => .ok (some dt)) = _
    rw [hpya, Except.bind, hpyb, Except.bind, hpyc, Except.bind, mkDate,
      if_pos hcond, Except.bind]
  · intro s h3
    have hne : ¬ s.data = [] := by
      intro h
      rw [h] at h3
      simp at h3
    have h0 : ¬ s.data.count '.' = 0 := by omega
    have h1 : ¬ s.data.count '.' = 1 := by omega
    have h2 : ¬ s.data.count '.' = 2 := by omega
    rw [parse_decimal_date, if_neg hne, if_neg h0, if_neg h1, if_neg h2]

/-! ## Claim C9 -/

/-- C9 (confirmed): the covered-years set of a product whose single interval
has both endpoints is exactly the inclusive calendar-year range; a product
whose intervals all miss an endpoint contributes no years; and all product
counters of `caclulate_metrics` — the global count and the per-theme,
per-variable and per-mission product counts — are reference counts computed
independently of the dates, so such a product still increments them all. -/
theorem c9_year_coverage_and_counters (root : RootC) (out : GlobalOut) (ident : String)
    (h : caclulate_metrics ident root = .ok out)
    (hthemes : (root.themes.map (fun c => c.id)).Nodup)
    (hvars : (root.variables_.map (fun c => c.id)).Nodup)
    (hmissions : (root.eo_missions.map (fun c => c.id)).Nodup) :
    (∀ (c : CollectionC) (s e : DateC), c.intervals = [(some s, some e)] →
      ∀ y, y ∈ extract_collection_years c ↔ (s.year ≤ y ∧ y ≤ e.year)) ∧
    (∀ c : CollectionC, (∀ iv ∈ c.intervals, iv.1 = none ∨ iv.2 = none) →
      extract_collection_years c = []) ∧
    out.numberOfProducts = root.products.length ∧
    out.themes.map (fun t => t.numberOfProducts) =
      root.themes.map (fun c =>
        (root.products.map
          (fun p => ((get_theme_names p).map get_theme_id).count c.id)).sum) ∧
    out.variables_.map (fun v => v.numberOfProducts) =
      root.variables_.map (fun c =>
        (root.products.map
          (fun p => (p.variables_.map get_variable_id).count c.id)).sum) ∧
    out.eo_missions.map (fun msn => msn.numberOfProducts) =
      root.eo_missions.map (fun c =>
        (root.products.map (fun p => p.missions.count c.id)).sum) := by
  have hyears1 : ∀ (c : CollectionC) (s e : DateC), c.intervals = [(some s, some e)] →
      ∀ y, y ∈ extract_collection_years c ↔ (s.year ≤ y ∧ y ≤ e.year) := by
    intro c s e hc y
    unfold extract_collection_years
    rw [hc, List.foldl_cons, List.foldl_nil]
    show y ∈ sunion [] (rangeSet s.year (e.year + 1)) ↔ _
    rw [mem_sunion, mem_rangeSet]
    constructor
    · rintro (hin | hin)
      · simp at hin
      · omega
    · intro hy
      right
      omega
  have hyears2 : ∀ c : CollectionC, (∀ iv ∈ c.intervals, iv.1 = none ∨ iv.2 = none) →
      extract_collection_years c = [] := by
    intro c hall
    unfold extract_collection_years
    exact years_fold_skip hall
  simp only [caclulate_metrics] at h
  rw [except_bind_ok] at h
  obtain ⟨tinfos1, hproj, h⟩ := h
  rw [except_bind_ok] at h
  obtain ⟨st, hst, h⟩ := h
  rw [except_bind_ok] at h
  obtain ⟨tinfosF, hcross, h⟩ := h
  have hout := Except.ok.inj h
  subst hout
  have htin0 : dictOf (fun t => t.id) initThemeInfo root.themes =
      root.themes.map (fun t => (t.id, initThemeInfo t)) := dictOf_eq_map hthemes
  have hvin0 : dictOf (fun v => v.id) initVarInfo root.variables_ =
      root.variables_.map (fun v => (v.id, initVarInfo v)) := dictOf_eq_map hvars
  have hmin0 : dictOf (fun msn => msn.id) initMissionInfo root.eo_missions =
      root.eo_missions.map (fun msn => (msn.id, initMissionInfo msn)) :=
    dictOf_eq_map hmissions
  have hkeysT0 : (dictOf (fun t => t.id) initThemeInfo root.themes).map (fun kv => kv.1)
      = root.themes.map (fun c => c.id) := by
    rw [htin0, List.map_map]
    rfl
  have hkeysV0 : (dictOf (fun v => v.id) initVarInfo root.variables_).map (fun kv => kv.1)
      = root.variables_.map (fun c => c.id) := by
    rw [hvin0, List.map_map]
    rfl
  have hkeysM0 : (dictOf (fun msn => msn.id) initMissionInfo root.eo_missions).map
      (fun kv => kv.1) = root.eo_missions.map (fun c => c.id) := by
    rw [hmin0, List.map_map]
    rfl
  obtain ⟨hkproj, hpproj⟩ := projects_fold_keep hproj
  obtain ⟨⟨hkT, hkV, hkM⟩, hT, hV, hM⟩ := productLoop_ok_inv hst
  obtain ⟨hkcross, hpcross⟩ := crossprop_fold_keep hcross
  have hkeysF : tinfosF.map (fun kv => kv.1) = root.themes.map (fun c => c.id) := by
    rw [hkcross, hkT]
    show tinfos1.map (fun kv => kv.1) = _
    rw [hkproj, hkeysT0]
  have hkeysV : st.vinfos.map (fun kv => kv.1) = root.variables_.map (fun c => c.id) := by
    rw [hkV]
    show (dictOf (fun v => v.id) initVarInfo root.variables_).map (fun kv => kv.1) = _
    exact hkeysV0
  have hkeysM : st.minfos.map (fun kv => kv.1) = root.eo_missions.map (fun c => c.id) := by
    rw [hkM]
    show (dictOf (fun msn => msn.id) initMissionInfo root.eo_missions).map
      (fun kv => kv.1) = _
    exact hkeysM0
  have hlookT : ∀ k v, dlookup tinfosF k = some v →
      v.num_products =
        (root.products.map
          (fun p => ((get_theme_names p).map get_theme_id).count k)).sum := by
    intro k v hv
    have e1 := hpcross k
    rw [hv] at e1
    obtain ⟨v2, hv2, he2⟩ := option_map_eq_some e1.symm
    have e2 := hT k
    rw [hv2] at e2
    obtain ⟨v1, hv1, he1⟩ := option_map_eq_some e2.symm
    have e3 := hpproj k
    have hv1' : dlookup tinfos1 k = some v1 := hv1
    rw [hv1'] at e3
    obtain ⟨v0, hv0, he0⟩ := option_map_eq_some e3.symm
    rw [htin0] at hv0
    obtain ⟨t, ht, htid, hvt⟩ := dlookup_map_rows hv0
    have hz : v0.num_products = 0 := by rw [hvt]; rfl
    simp only [Option.map_some'] at he2 he1 he0
    omega
  have hlookV : ∀ k v, dlookup st.vinfos k = some v →
      v.num_products =
        (root.products.map (fun p => (p.variables_.map get_variable_id).count k)).sum := by
    intro k v hv
    have e2 := hV k
    rw [hv] at e2
    obtain ⟨v1, hv1, he1⟩ := option_map_eq_some e2.symm
    have hv1' : dlookup (dictOf (fun v' => v'.id) initVarInfo root.variables_) k =
        some v1 := hv1
    rw [hvin0] at hv1'
    obtain ⟨r, hr, hrid, hvr⟩ := dlookup_map_rows hv1'
    have hz : v1.num_products = 0 := by rw [hvr]; rfl
    simp only [Option.map_some'] at he1
    omega
  have hlookM : ∀ k v, dlookup st.minfos k = some v →
      v.num_products =
        (root.products.map (fun p => p.missions.count k)).sum := by
    intro k v hv
    have e2 := hM k
    rw [hv] at e2
    obtain ⟨v1, hv1, he1⟩ := option_map_eq_some e2.symm
    have hv1' : dlookup (dictOf (fun msn => msn.id) initMissionInfo root.eo_missions) k =
        some v1 := hv1
    rw [hmin0] at hv1'
    obtain ⟨r, hr, hrid, hvr⟩ := dlookup_map_rows hv1'
    have hz : v1.num_products = 0 := by rw [hvr]; rfl
    simp only [Option.map_some'] at he1
    omega
  refine ⟨hyears1, hyears2, rfl, ?_, ?_, ?_⟩
  · show (tinfosF.map (fun kv =>
        (⟨kv.2.name, kv.2.description, kv.2.image, kv.2.website, kv.2.years,
          kv.2.num_products, kv.2.num_projects, kv.2.num_variables⟩ : ThemeOut))).map
        (fun t => t.numberOfProducts) = _
    rw [List.map_map]
    have hstep : tinfosF.map
        ((fun t => t.numberOfProducts) ∘ (fun kv =>
          (⟨kv.2.name, kv.2.description, kv.2.image, kv.2.website, kv.2.years,
            kv.2.num_products, kv.2.num_projects, kv.2.num_variables⟩ : ThemeOut))) =
        tinfosF.map (fun kv => kv.2.num_products) := rfl
    rw [hstep,
      map_snd_eq (hkeysF ▸ hthemes) hlookT,
      map_key_eq (fun k =>
        (root.products.map
          (fun p => ((get_theme_names p).map get_theme_id).count k)).sum) hkeysF,
      List.map_map]
    rfl
  · show (st.vinfos.map (fun kv =>
        (⟨kv.2.name, kv.2.description, kv.2.years, kv.2.num_products⟩ : VariableOut))).map
        (fun v => v.numberOfProducts) = _
    rw [List.map_map]
    have hstep : st.vinfos.map
        ((fun v => v.numberOfProducts) ∘ (fun kv =>
          (⟨kv.2.name, kv.2.description, kv.2.years, kv.2.num_products⟩ : VariableOut))) =
        st.vinfos.map (fun kv => kv.2.num_products) := rfl
    rw [hstep,
      map_snd_eq (hkeysV ▸ hvars) hlookV,
      map_key_eq (fun k =>
        (root.products.map (fun p => (p.variables_.map get_variable_id).count k)).sum)
        hkeysV,
      List.map_map]
    rfl
  · show (st.minfos.map (fun kv =>
        (⟨kv.2.name, kv.2.years, kv.2.num_products, kv.2.num_projects⟩ : MissionOut))).map
        (fun msn => msn.numberOfProducts) = _
    rw [List.map_map]
    have hstep : st.minfos.map
        ((fun msn => msn.numberOfProducts) ∘ (fun kv =>
          (⟨kv.2.name, kv.2.years, kv.2.num_products, kv.2.num_projects⟩ : MissionOut))) =
        st.minfos.map (fun kv => kv.2.num_products) := rfl
    rw [hstep,
      map_snd_eq (hkeysM ▸ hmissions) hlookM,
      map_key_eq (fun k =>
        (root.products.map (fun p => p.missions.count k)).sum) hkeysM,
      List.map_map]
    rfl

/-- Witness for `c9_year_coverage_and_counters`: on `rootC9` — whose one
product has a start but no end — the metrics document is `outC9`, with empty
year lists and every product counter equal to 1. -/
theorem c9_year_coverage_and_counters_witness :
    (∀ (c : CollectionC) (s e : DateC), c.intervals = [(some s, some e)] →
      ∀ y, y ∈ extract_collection_years c ↔ (s.year ≤ y ∧ y ≤ e.year)) ∧
    (∀ c : CollectionC, (∀ iv ∈ c.intervals, iv.1 = none ∨ iv.2 = none) →
      extract_collection_years c = []) ∧
    outC9.numberOfProducts = rootC9.products.length ∧
    outC9.themes.map (fun t => t.numberOfProducts) =
      rootC9.themes.map (fun c =>
        (rootC9.products.map
          (fun p => ((get_theme_names p).map get_theme_id).count c.id)).sum) ∧
    outC9.variables_.map (fun v => v.numberOfProducts) =
      rootC9.variables_.map (fun c =>
        (rootC9.products.map
          (fun p => (p.variables_.map get_variable_id).count c.id)).sum) ∧
    outC9.eo_missions.map (fun msn => msn.numberOfProducts) =
      rootC9.eo_missions.map (fun c =>
        (rootC9.products.map (fun p => p.missions.count c.id)).sum) :=
  c9_year_coverage_and_counters rootC9 outC9 "cat" (by decide) (by decide) (by decide)
    (by decide)

/-- Witness for `c10_amended_parse_decimal_date`: the one-dot branch maps
`"2020.5"` to the month-shifted `date(2020, 6, 1)`. -/
theorem c10_amended_parse_decimal_date_witness :
    parse_decimal_date (some (String.mk
        (['2', '0', '2', '0'] ++ '.' :: ['5']))) =
      .ok (some ⟨(2020 : Int), (5 : Int) + 1, 1⟩) :=
  c10_amended_parse_decimal_date.2.2.1 ['2', '0', '2', '0'] ['5'] 2020 5
    (by decide) (by decide) (by decide) (by decide) (by decide) (by decide) (by decide)

end OSC
